import Mathlib

/-!
# Gossip layer of the reconfiguration service (`reconfig/gossip.go`)

A shallow embedding of `netService`: the dedup cache `gossipMsg`, the staleness
filter `IgnoreMsg`, the fan-out `broadcast`, the per-peer queues fed by
`SendRawData`, the running flag managed by `setIsRunning` and `loop_iddata`, and
the heartbeat scan of `heartBeat_Loop`.

Conventions.
* `uint64` heights and the `int32` flags are natural numbers; the code only
  compares and stores them, it never does arithmetic on them.
* A Go map that the code ranges over (`gossipMsg`) is an association list with
  unique keys (`AList`); the other maps are only read and written at one key
  and are functions into `Option`.
* A run-time panic (index out of range, nil queue) is the result `none`.
* Calls into collaborators whose code is elsewhere (`bftview`, `math`, the
  transport, the consensus callback) are either read from an environment record
  or appended to a log field of the state.
-/

namespace Gossip

/-! ## Data model -/

/-- The flag bit of a gossip message: `const Gossip_MSG = 8`. -/
def Gossip_MSG : Nat := 8

/-- Modelled from the spec: the type `committeeMsg` behind `networkMsg.Cmsg` is
declared outside `gossip.go`; the file reads only its `KeyNumber`, everything
else it carries is kept as uninterpreted `body`. -/
structure committeeMsg where
  KeyNumber : Nat
  body : List Nat
deriving DecidableEq

/-- Modelled from the spec: the type `bestCandidateMsg` behind `networkMsg.Bmsg`
is declared outside `gossip.go`; the file reads only its `KeyNumber`. -/
structure bestCandidateMsg where
  KeyNumber : Nat
  body : List Nat
deriving DecidableEq

/-- Modelled from the spec: the type `hotstuffMsg` behind `networkMsg.Hmsg` is
declared outside `gossip.go`; the file reads only its `Number`. -/
structure hotstuffMsg where
  Number : Nat
  body : List Nat
deriving DecidableEq

/-- Modelled from the spec: `networkMsg` is declared outside `gossip.go`; these
are the four fields the file uses.  A nil pointer is `none`, so any subset of
the three payloads may be present, as in the Go struct. -/
structure networkMsg where
  MsgFlag : Nat
  Cmsg : Option committeeMsg
  Bmsg : Option bestCandidateMsg
  Hmsg : Option hotstuffMsg
deriving DecidableEq

/-- The Go struct `heartBeatMsg`. -/
structure heartBeatMsg where
  blockN : Nat
deriving DecidableEq

/-- The Go struct `msgHeadInfo`: the provenance kept in the dedup cache. -/
structure msgHeadInfo where
  blockN : Nat
  keyblockN : Nat
deriving DecidableEq

/-- What `env.Msg` can hold: the two message types registered with the service. -/
inductive Payload where
  | net (m : networkMsg)
  | heartBeat (m : heartBeatMsg)
deriving DecidableEq

/-- Modelled from the spec: `network.Envelope` is declared in the transport; this
is the part the handlers read, the sender address
(`env.ServerIdentity.Address.String()`) and the message. -/
structure Envelope where
  address : String
  Msg : Payload
deriving DecidableEq

/-- Modelled from the spec: a member of `bftview.Committee.List`, declared in
`bftview`; the file reads its `Address` and the answer of `IsSelf()`. -/
structure CommitteeMember where
  Address : String
  isSelf : Bool
deriving DecidableEq

/-- What one call of `broadcast` reads from its collaborators. -/
structure Env where
  /-- Value of `bftview.GetServerCommitteeLen()`. -/
  committeeLen : Nat
  /-- The function `math.GetRandIntArray`. -/
  randIntArray : Nat → Nat → List Nat
  /-- Value of `bftview.GetCurrentMember()`: `none` for nil, else its `List`. -/
  currentMember : Option (List CommitteeMember)

/-- The fields of `netService` used by the gossip layer, with three logs of the
calls that leave it: `acked` (calls of `backend.networkMsgAck`), `spawned`
(`go s.loop_iddata(id, q)`) and `sent` (`s.SendRaw` from a queue worker). -/
structure netService (H : Type) where
  serverAddress : String
  gossipMsg : AList (fun _ : H => msgHeadInfo)
  goMap : String → Option Nat
  idDataMap : String → Option (List networkMsg)
  curBlockN : Nat
  curKeyBlockN : Nat
  acked : List (String × networkMsg)
  spawned : List String
  sent : List (String × networkMsg)

variable {H : Type}

/-- The state built by `newNetService`: empty maps, progress zero. -/
def newNetService (address : String) : netService H :=
  { serverAddress := address, gossipMsg := ∅, goMap := fun _ => none,
    idDataMap := fun _ => none, curBlockN := 0, curKeyBlockN := 0,
    acked := [], spawned := [], sent := [] }

/-! ## Staleness and provenance -/

/-- The method `netService.IgnoreMsg`: the first non-nil of `Cmsg`, `Bmsg`, `Hmsg`
decides, against `curKeyBlockN`, `curKeyBlockN`, `curBlockN`. -/
def IgnoreMsg (s : netService H) (m : networkMsg) : Bool :=
  match m.Cmsg with
  | some c => decide (c.KeyNumber < s.curKeyBlockN)
  | none =>
    match m.Bmsg with
    | some b => decide (b.KeyNumber < s.curKeyBlockN)
    | none =>
      match m.Hmsg with
      | some h => decide (h.Number < s.curBlockN)
      | none => false

/-- The method `netService.getMsgHeadInfo`; `new(msgHeadInfo)` is all zero. -/
def getMsgHeadInfo (msg : networkMsg) : msgHeadInfo :=
  match msg.Cmsg with
  | some c => { keyblockN := c.KeyNumber, blockN := 0 }
  | none =>
    match msg.Bmsg with
    | some b => { keyblockN := b.KeyNumber, blockN := 0 }
    | none =>
      match msg.Hmsg with
      | some h => { keyblockN := 0, blockN := h.Number }
      | none => { keyblockN := 0, blockN := 0 }

/-! ## Progress and pruning -/

/-- The method `netService.procBlockDone`: store both heights, then range over
the cache and delete each key whose entry meets the condition of the source. -/
def procBlockDone [DecidableEq H] (s : netService H) (blockN keyblockN : Nat) : netService H :=
  { s with
    curBlockN := blockN
    curKeyBlockN := keyblockN
    gossipMsg := s.gossipMsg.entries.foldl
      (fun g e =>
        if (e.2.blockN > 0 && e.2.blockN < blockN) ||
            (e.2.keyblockN > 0 && e.2.keyblockN < keyblockN)
        then g.erase e.1 else g)
      s.gossipMsg }

/-! ## Per-peer running flag and queue -/

/-- The method `netService.setIsRunning`, run without interleaving: look the flag
up (creating it as 0), load it, and either store 1 and, when the loaded value
was 0, make sure the queue exists and launch a worker, or store 2 when the
loaded value was 1. -/
def setIsRunning (s : netService H) (id : String) (isStart : Bool) : netService H :=
  let s1 : netService H :=
    match s.goMap id with
    | some _ => s
    | none => { s with goMap := Function.update s.goMap id (some 0) }
  let i := (s1.goMap id).getD 0
  if isStart then
    let s2 : netService H := { s1 with goMap := Function.update s1.goMap id (some 1) }
    if i = 0 then
      let s3 : netService H :=
        match s2.idDataMap id with
        | some _ => s2
        | none => { s2 with idDataMap := Function.update s2.idDataMap id (some []) }
      { s3 with spawned := s3.spawned ++ [id] }
    else s2
  else
    if i = 1 then { s1 with goMap := Function.update s1.goMap id (some 2) } else s1

/-- The method `netService.SendRawData`: nothing for the own address; otherwise
`setIsRunning(address, true)` and a push on the queue found in `idDataMap`
(a missing queue is a nil pointer, the push panics). -/
def SendRawData (s : netService H) (address : String) (msg : networkMsg) :
    Option (netService H) :=
  if address = s.serverAddress then some s
  else
    let s1 := setIsRunning s address true
    match s1.idDataMap address with
    | none => none
    | some q =>
      some { s1 with idDataMap := Function.update s1.idDataMap address (some (q ++ [msg])) }

/-! ## Fan-out -/

/-- The loop `for i, _ := range seedIndexs` of `broadcast`, over the pairs
(position, value) of `seedIndexs`: the member read is `mblist[i]` for the
position `i`; an index past the end of `mblist` panics. -/
def broadcastLoop (mblist : List CommitteeMember) (msg : networkMsg) :
    List (Nat × Nat) → netService H → Option (netService H)
  | [], s => some s
  | (i, _) :: rest, s =>
    match mblist[i]? with
    | none => none
    | some mbr =>
      if mbr.isSelf then broadcastLoop mblist msg rest s
      else
        match SendRawData s mbr.Address msg with
        | none => none
        | some s1 => broadcastLoop mblist msg rest s1

/-- The method `netService.broadcast`.  The message is behind a pointer, so the
assignment `msg.MsgFlag = Gossip_MSG` is seen by the caller: the message as
left by the call is returned with the state. -/
def broadcast [DecidableEq H] (rlpHash : networkMsg → H) (env : Env) (s : netService H)
    (msg : networkMsg) : Option (netService H × networkMsg) :=
  let n := env.committeeLen
  let msg1 : networkMsg := { msg with MsgFlag := Gossip_MSG }
  let seedIndexs := env.randIntArray n ((n * 4 / 10) + 1)
  match env.currentMember with
  | none => some (s, msg1)
  | some mblist =>
    let hash := rlpHash msg1
    let hInfo := getMsgHeadInfo msg1
    let s1 : netService H := { s with gossipMsg := s.gossipMsg.insert hash hInfo }
    match broadcastLoop mblist msg1 seedIndexs.enum s1 with
    | none => none
    | some s2 => some (s2, msg1)

/-- The method `netService.handleNetworkMsgAck`. -/
def handleNetworkMsgAck [DecidableEq H] (rlpHash : networkMsg → H) (env : Env) (s : netService H)
    (e : Envelope) : Option (netService H) :=
  match e.Msg with
  | Payload.heartBeat _ => some s
  | Payload.net msg =>
    if IgnoreMsg s msg then some s
    else if (msg.MsgFlag &&& Gossip_MSG) > 0 then
      let hash := rlpHash msg
      match s.gossipMsg.lookup hash with
      | none =>
        match broadcast rlpHash env s msg with
        | none => none
        | some (s1, msg1) => some { s1 with acked := s1.acked ++ [(e.address, msg1)] }
      | some _ => some s
    else some { s with acked := s.acked ++ [(e.address, msg)] }

/-! ## The queue worker -/

/-- One pass of the loop of `loop_iddata` for `address`; `netBlocks` is the
value `s.GetNetBlocks(si)` read in this pass.  The result says whether the
worker goes on: when the flag is not 1 the loop ends and the flag is set to 0.
A popped message that `IgnoreMsg` rejects is dropped, any other is handed to
`SendRaw` (logged in `sent`).  The flag and the queue are the ones the worker
was launched with, which `setIsRunning` had created. -/
def loop_iddata_pass (s : netService H) (address : String) (netBlocks : Nat) :
    netService H × Bool :=
  if s.goMap address = some 1 then
    if netBlocks > 1 then (s, true)
    else
      match s.idDataMap address with
      | some (m :: rest) =>
        let s1 : netService H :=
          { s with idDataMap := Function.update s.idDataMap address (some rest) }
        if IgnoreMsg s1 m then (s1, true)
        else ({ s1 with sent := s1.sent ++ [(address, m)] }, true)
      | _ => (s, true)
  else ({ s with goMap := Function.update s.goMap address (some 0) }, false)

/-! ## The running flag under interleaving

The steps of `setIsRunning` and of `loop_iddata` on the flag of one address,
one atomic action at a time, for any number of concurrent callers. -/

/-- Where a call of `setIsRunning(id, isStart)` stands. -/
inductive CallPc where
  /-- Before the locked lookup (and creation) of the flag. -/
  | lookup (isStart : Bool)
  /-- Before `atomic.LoadInt32(isRunning)`. -/
  | load (isStart : Bool)
  /-- The value `i` is loaded; before the store (of 1, or of 2 when `i == 1`). -/
  | store (isStart : Bool) (i : Nat)
  /-- After the store of 1 with `i == 0`: before the queue creation and `go`. -/
  | spawn
  | done
deriving DecidableEq

/-- Where a worker `loop_iddata` stands: at the loop test, at the final store of
0, or returned. -/
inductive WorkPc where
  | test
  | settle
  | exited
deriving DecidableEq

/-- The flag and queue of one address with the calls and workers in progress. -/
structure RunState where
  flag : Option Nat
  hasQueue : Bool
  calls : List CallPc
  workers : List WorkPc
deriving DecidableEq

/-- One scheduling decision: a new call arrives, call `k` or worker `k` takes
its next atomic step. -/
inductive RunAction where
  | call (isStart : Bool)
  | stepCall (k : Nat)
  | stepWork (k : Nat)
deriving DecidableEq

/-- The next atomic step of a call of `setIsRunning`. -/
def stepCallPc (st : RunState) : CallPc → RunState × CallPc
  | CallPc.lookup b =>
    (match st.flag with
     | some _ => st
     | none => { st with flag := some 0 }, CallPc.load b)
  | CallPc.load b => (st, CallPc.store b (st.flag.getD 0))
  | CallPc.store true i =>
    ({ st with flag := some 1 }, if i = 0 then CallPc.spawn else CallPc.done)
  | CallPc.store false i =>
    (if i = 1 then { st with flag := some 2 } else st, CallPc.done)
  | CallPc.spawn =>
    ({ st with hasQueue := true, workers := st.workers ++ [WorkPc.test] }, CallPc.done)
  | CallPc.done => (st, CallPc.done)

/-- The next atomic step of a worker: the test `atomic.LoadInt32(isRunning) == 1`
keeps it in the loop or sends it to the final `atomic.StoreInt32(isRunning, 0)`. -/
def stepWorkPc (st : RunState) : WorkPc → RunState × WorkPc
  | WorkPc.test => (st, if st.flag = some 1 then WorkPc.test else WorkPc.settle)
  | WorkPc.settle => ({ st with flag := some 0 }, WorkPc.exited)
  | WorkPc.exited => (st, WorkPc.exited)

/-- The step relation as a function; `none` when the action names no thread. -/
def runStep (st : RunState) : RunAction → Option RunState
  | RunAction.call b => some { st with calls := st.calls ++ [CallPc.lookup b] }
  | RunAction.stepCall k =>
    match st.calls[k]? with
    | none => none
    | some pc =>
      let r := stepCallPc st pc
      some { r.1 with calls := r.1.calls.set k r.2 }
  | RunAction.stepWork k =>
    match st.workers[k]? with
    | none => none
    | some pc =>
      let r := stepWorkPc st pc
      some { r.1 with workers := r.1.workers.set k r.2 }

/-- Run a schedule from a state. -/
def runSchedule : RunState → List RunAction → Option RunState
  | st, [] => some st
  | st, a :: rest =>
    match runStep st a with
    | none => none
    | some st1 => runSchedule st1 rest

/-- The address as `newNetService` leaves it: no flag, no queue, no thread. -/
def RunState.init : RunState :=
  { flag := none, hasQueue := false, calls := [], workers := [] }

/-- Number of workers that have been launched and have not returned. -/
def RunState.liveWorkers (st : RunState) : Nat :=
  (st.workers.filter (fun w => decide (w ≠ WorkPc.exited))).length

/-! ## Heartbeat -/

/-- The largest `time.Duration`, in nanoseconds: `1<<63 - 1`. -/
def maxDuration : Int := 9223372036854775807

/-- The smallest `time.Duration`, in nanoseconds: `-1 << 63`. -/
def minDuration : Int := -9223372036854775808

/-- The method `Time.Sub` on wall-clock instants counted in nanoseconds from the
zero `time.Time`: the difference, saturated to the range of `time.Duration`. -/
def timeSub (t u : Int) : Int :=
  if t - u > maxDuration then maxDuration
  else if t - u < minDuration then minDuration
  else t - u

/-- The Go struct `ackInfo`; the zero `time.Time` is instant 0. -/
structure ackInfo where
  tm : Int
  isSending : Nat
deriving DecidableEq

/-- Where a goroutine launched by `heartBeat_Loop` stands: before the store of 1
into `isSending`, before `SendRaw`, before the store of 0, or returned. -/
inductive SendPc where
  | store1
  | sendRaw
  | store0
  | finished
deriving DecidableEq

/-- The liveness records with the heartbeat goroutines launched so far and the
log of their `SendRaw` calls. -/
structure HeartBeat where
  ackMap : String → Option ackInfo
  sends : List (String × SendPc)
  hbSent : List String

/-- The state `newNetService` builds: no record, nothing launched. -/
def HeartBeat.init : HeartBeat :=
  { ackMap := fun _ => none, sends := [], hbSent := [] }

/-- The method `netService.getAckInfo`: the record of `addr`, created all zero
when absent. -/
def getAckInfo (s : HeartBeat) (addr : String) : HeartBeat × ackInfo :=
  match s.ackMap addr with
  | some a => (s, a)
  | none =>
    let a : ackInfo := { tm := 0, isSending := 0 }
    ({ s with ackMap := Function.update s.ackMap addr (some a) }, a)

/-- The method `netService.handleHeartBeatMsgAck` for a message from `address`
arriving at instant `now`. -/
def handleHeartBeatMsgAck (s : HeartBeat) (address : String) (now : Int) : HeartBeat :=
  let r := getAckInfo s address
  { r.1 with ackMap := Function.update r.1.ackMap address (some { r.2 with tm := now }) }

/-- The test `now.Sub(a.tm) > heatBeatTimeout` of `heartBeat_Loop`. -/
def isOverdue (now : Int) (a : ackInfo) (heatBeatTimeout : Int) : Bool :=
  decide (timeSub now a.tm > heatBeatTimeout)

/-- The body of `for _, node := range mb.List` in `heartBeat_Loop`, for the
instant `now` taken before the loop and the transport counts `netBlocks`
(`s.GetNetBlocks`): a launch appends a goroutine standing before its store of 1. -/
def heartBeat_visit (heatBeatTimeout now : Int) (netBlocks : String → Nat)
    (s : HeartBeat) (node : CommitteeMember) : HeartBeat :=
  if node.isSelf then s
  else
    let r := getAckInfo s node.Address
    if isOverdue now r.2 heatBeatTimeout then
      if r.2.isSending = 0 then
        if netBlocks node.Address = 0 then
          { r.1 with sends := r.1.sends ++ [(node.Address, SendPc.store1)] }
        else r.1
      else r.1
    else r.1

/-- One pass of the outer loop of `heartBeat_Loop` over the committee list. -/
def heartBeat_pass (heatBeatTimeout now : Int) (netBlocks : String → Nat)
    (s : HeartBeat) (mblist : List CommitteeMember) : HeartBeat :=
  mblist.foldl (heartBeat_visit heatBeatTimeout now netBlocks) s

/-- Store `v` into the `isSending` cell of `addr`. -/
def storeIsSending (s : HeartBeat) (addr : String) (v : Nat) : HeartBeat :=
  match s.ackMap addr with
  | some a => { s with ackMap := Function.update s.ackMap addr (some { a with isSending := v }) }
  | none => s

/-- The next atomic step of the `k`-th launched goroutine: store 1, `SendRaw`,
store 0. -/
def sendStep (s : HeartBeat) (k : Nat) : Option HeartBeat :=
  match s.sends[k]? with
  | some (addr, SendPc.store1) =>
    some { storeIsSending s addr 1 with sends := s.sends.set k (addr, SendPc.sendRaw) }
  | some (addr, SendPc.sendRaw) =>
    some { s with sends := s.sends.set k (addr, SendPc.store0), hbSent := s.hbSent ++ [addr] }
  | some (addr, SendPc.store0) =>
    some { storeIsSending s addr 0 with sends := s.sends.set k (addr, SendPc.finished) }
  | _ => none

/-- Number of heartbeat sends to `addr` that are launched and not completed. -/
def HeartBeat.inFlight (s : HeartBeat) (addr : String) : Nat :=
  (s.sends.filter (fun e => decide (e.1 = addr ∧ e.2 ≠ SendPc.finished))).length

/-! ## Predicates used in the statements -/

/-- An entry lies in a pruned range: `blockN` in the open interval (0, N) or
`keyblockN` in the open interval (0, K). -/
def pruned (N K : Nat) (h : msgHeadInfo) : Prop :=
  (0 < h.blockN ∧ h.blockN < N) ∨ (0 < h.keyblockN ∧ h.keyblockN < K)

instance (N K : Nat) (h : msgHeadInfo) : Decidable (pruned N K h) := by
  unfold pruned; infer_instance

/-- Well-formed queue registry: a flag that is not idle has its queue (the queue
is created on the way out of idle and never removed); it holds in every state
reached from `newNetService`. -/
def netService.WF (s : netService H) : Prop :=
  ∀ a i, s.goMap a = some i → i ≠ 0 → s.idDataMap a ≠ none

/-- The committee reads of one `broadcast` agree: the index array is no longer
than the member list, so `mblist[i]` stays in range. -/
def Env.inRange (env : Env) : Bool :=
  match env.currentMember with
  | none => true
  | some l =>
    decide
      ((env.randIntArray env.committeeLen ((env.committeeLen * 4 / 10) + 1)).length ≤ l.length)

/-- What a fan-out leaves alone: the cache, the progress, the own address and the
logs of callback calls and of worker sends. -/
structure Frame (s t : netService H) : Prop where
  gossipMsg : t.gossipMsg = s.gossipMsg
  acked : t.acked = s.acked
  curBlockN : t.curBlockN = s.curBlockN
  curKeyBlockN : t.curKeyBlockN = s.curKeyBlockN
  serverAddress : t.serverAddress = s.serverAddress
  sent : t.sent = s.sent

/-- A message is stale against the progress `(curBlockN, curKeyBlockN)`: its height
field is below the corresponding progress field, the variant being the first
non-nil of `Cmsg`, `Bmsg`, `Hmsg`. -/
def stale (curBlockN curKeyBlockN : Nat) (m : networkMsg) : Prop :=
  (∃ c, m.Cmsg = some c ∧ c.KeyNumber < curKeyBlockN) ∨
  (m.Cmsg = none ∧ ∃ b, m.Bmsg = some b ∧ b.KeyNumber < curKeyBlockN) ∨
  (m.Cmsg = none ∧ m.Bmsg = none ∧ ∃ h, m.Hmsg = some h ∧ h.Number < curBlockN)

/-- One operation of the service; a progress notification never lowers a height. -/
inductive Step [DecidableEq H] (rlpHash : networkMsg → H) : netService H → netService H → Prop
  | handle (env : Env) (e : Envelope) {s t : netService H} :
      handleNetworkMsgAck rlpHash env s e = some t → Step rlpHash s t
  | bcast (env : Env) (m m1 : networkMsg) {s t : netService H} :
      broadcast rlpHash env s m = some (t, m1) → Step rlpHash s t
  | send (a : String) (m : networkMsg) {s t : netService H} :
      SendRawData s a m = some t → Step rlpHash s t
  | setRunning (a : String) (isStart : Bool) (s : netService H) :
      Step rlpHash s (setIsRunning s a isStart)
  | worker (a : String) (netBlocks : Nat) (s : netService H) :
      Step rlpHash s (loop_iddata_pass s a netBlocks).1
  | progress (N K : Nat) (s : netService H) :
      s.curBlockN ≤ N → s.curKeyBlockN ≤ K → Step rlpHash s (procBlockDone s N K)

/-- The state `t` is reached from `s` by operations of the service. -/
def Later [DecidableEq H] (rlpHash : networkMsg → H) (s t : netService H) : Prop :=
  Relation.ReflTransGen (Step rlpHash) s t

/-- One operation of the service other than a progress notification. -/
inductive Traffic [DecidableEq H] (rlpHash : networkMsg → H) : netService H → netService H → Prop
  | handle (env : Env) (e : Envelope) {s t : netService H} :
      handleNetworkMsgAck rlpHash env s e = some t → Traffic rlpHash s t
  | bcast (env : Env) (m m1 : networkMsg) {s t : netService H} :
      broadcast rlpHash env s m = some (t, m1) → Traffic rlpHash s t
  | send (a : String) (m : networkMsg) {s t : netService H} :
      SendRawData s a m = some t → Traffic rlpHash s t
  | setRunning (a : String) (isStart : Bool) (s : netService H) :
      Traffic rlpHash s (setIsRunning s a isStart)
  | worker (a : String) (netBlocks : Nat) (s : netService H) :
      Traffic rlpHash s (loop_iddata_pass s a netBlocks).1

/-- One progress notification that lowers neither height. -/
inductive ProgressStep [DecidableEq H] : netService H → netService H → Prop
  | progress (N K : Nat) (s : netService H) :
      s.curBlockN ≤ N → s.curKeyBlockN ≤ K → ProgressStep s (procBlockDone s N K)

/-- The state `t` is reached from `s` by progress notifications only, none of
which lowers a height. -/
def Progressed [DecidableEq H] (s t : netService H) : Prop :=
  Relation.ReflTransGen ProgressStep s t

/-- Staleness read field by field: some payload that is present has its height
below the corresponding progress field. -/
def staleAnyField (curBlockN curKeyBlockN : Nat) (m : networkMsg) : Prop :=
  (∃ c, m.Cmsg = some c ∧ c.KeyNumber < curKeyBlockN) ∨
  (∃ b, m.Bmsg = some b ∧ b.KeyNumber < curKeyBlockN) ∨
  (∃ h, m.Hmsg = some h ∧ h.Number < curBlockN)

/-! ## Concrete inputs -/

/-- A committee of five; the first member is the node itself. -/
def committee5 : List CommitteeMember :=
  [⟨"a0", true⟩, ⟨"a1", false⟩, ⟨"a2", false⟩, ⟨"a3", false⟩, ⟨"a4", false⟩]

/-- Reads of one `broadcast` with `committee5`: `GetRandIntArray(5, 3)` gives the
indices 4, 2, 3. -/
def env5 : Env :=
  { committeeLen := 5
    randIntArray := fun _ _ => [4, 2, 3]
    currentMember := some committee5 }

/-- A header message with the given flag and height. -/
def headerMsg (flag number : Nat) : networkMsg :=
  { MsgFlag := flag, Cmsg := none, Bmsg := none, Hmsg := some { Number := number, body := [] } }

/-- A committee message with the given flag and key height. -/
def keyMsg (flag keyNumber : Nat) : networkMsg :=
  { MsgFlag := flag, Cmsg := some { KeyNumber := keyNumber, body := [] }, Bmsg := none,
    Hmsg := none }

/-- The node `a0` right after `newNetService`, the digest being the message
itself (an injective digest). -/
def node0 : netService networkMsg := newNetService "a0"

/-- What is observed of a state in the examples: the queues of `a1` to `a4`, the
callback log, the launch log, the cache entries and the log of worker sends. -/
structure View where
  queues : List (Option (List networkMsg))
  acked : List (String × networkMsg)
  spawned : List String
  cache : List (networkMsg × msgHeadInfo)
  sent : List (String × networkMsg)
deriving DecidableEq

/-- The observation of a state. -/
def view (s : netService networkMsg) : View :=
  { queues := [s.idDataMap "a1", s.idDataMap "a2", s.idDataMap "a3", s.idDataMap "a4"]
    acked := s.acked
    spawned := s.spawned
    cache := s.gossipMsg.entries.map (fun e => (e.1, e.2))
    sent := s.sent }

/-- The schedule of two concurrent calls `setIsRunning(id, true)` on an idle
address: both look the flag up, both load 0, then each stores 1 and launches a
worker. -/
def raceSchedule : List RunAction :=
  [RunAction.call true, RunAction.call true,
   RunAction.stepCall 0, RunAction.stepCall 1,
   RunAction.stepCall 0, RunAction.stepCall 1,
   RunAction.stepCall 0, RunAction.stepCall 0,
   RunAction.stepCall 1, RunAction.stepCall 1]

/-- The state `raceSchedule` leads to: both calls are done and two workers stand
at their loop test. -/
def raceOutcome : RunState :=
  { flag := some 1, hasQueue := true, calls := [CallPc.done, CallPc.done],
    workers := [WorkPc.test, WorkPc.test] }

/-- One second, in nanoseconds. -/
def second : Int := 1000000000

/-- The committee seen by the heartbeat loop: the node itself and the peer `p`. -/
def committee2 : List CommitteeMember := [⟨"a0", true⟩, ⟨"p", false⟩]

/-- The node `a0` after a start and a stop request for `a1`: the flag of `a1`
is 2 (stopping) and its worker has not looked at it yet. -/
def stoppingNode : netService networkMsg :=
  setIsRunning (setIsRunning node0 "a1" true) "a1" false

/-- The instant of the last acknowledgment of `p` in the heartbeat example. -/
def ackInstant : Int := 63800000000 * second

/-- The liveness records after an acknowledgment of `p` at `ackInstant`. -/
def hbAcked : HeartBeat := handleHeartBeatMsgAck HeartBeat.init "p" ackInstant

/-- Two successive passes of the heartbeat loop, 1.5 s after the acknowledgment,
with timeout 1 s, the transport reporting nothing in flight, and no step of a
launched goroutine in between. -/
def hbTwoPasses : HeartBeat :=
  heartBeat_pass second (ackInstant + 1500000000) (fun _ => 0)
    (heartBeat_pass second (ackInstant + 1500000000) (fun _ => 0) hbAcked committee2)
    committee2

/-- A state of one address with the flag at 2 (stopping), its worker at the loop
test and two finished calls. -/
def stoppingRun : RunState :=
  { flag := some 2, hasQueue := true, calls := [CallPc.done, CallPc.done],
    workers := [WorkPc.test] }

/-- A schedule on one address: a start call launches the worker, a stop call sets
the flag to 2, a second start call loads 2, the worker tests 2 and stores 0, the
second start call stores 1, and a third start call then loads 1. -/
def lostWorkerSchedule : List RunAction :=
  [RunAction.call true, RunAction.stepCall 0, RunAction.stepCall 0, RunAction.stepCall 0,
   RunAction.stepCall 0,
   RunAction.call false, RunAction.stepCall 1, RunAction.stepCall 1, RunAction.stepCall 1,
   RunAction.call true, RunAction.stepCall 2, RunAction.stepCall 2,
   RunAction.stepWork 0, RunAction.stepWork 0,
   RunAction.stepCall 2,
   RunAction.call true, RunAction.stepCall 3, RunAction.stepCall 3, RunAction.stepCall 3]

/-! ## Lemmas -/

theorem cond_iff_pruned (N K : Nat) (h : msgHeadInfo) :
    ((decide (h.blockN > 0) && decide (h.blockN < N)) ||
        (decide (h.keyblockN > 0) && decide (h.keyblockN < K))) = true
      ↔ pruned N K h := by
  simp [pruned]

theorem kerase_eq_filter_of_nodupKeys [DecidableEq H] (a : H) :
    ∀ (l : List (Sigma fun _ : H => msgHeadInfo)), l.NodupKeys →
      l.kerase a = l.filter (fun e => decide (e.1 ≠ a))
  | [], _ => rfl
  | e :: l, nd => by
    have ndl : l.NodupKeys := (List.nodupKeys_cons.1 nd).2
    have hnot : e.1 ∉ l.keys := (List.nodupKeys_cons.1 nd).1
    by_cases h : a = e.1
    · subst h
      rw [List.kerase_cons_eq rfl]
      have : l.filter (fun e' => !decide (e'.1 = e.1)) = l := by
        apply List.filter_eq_self.2
        intro e' he'
        have : e'.1 ≠ e.1 := fun hh => hnot (hh ▸ List.mem_keys_of_mem he')
        simpa using this
      simp [List.filter_cons, this]
    · rw [List.kerase_cons_ne h]
      have h2 : e.1 ≠ a := fun hh => h hh.symm
      simp [List.filter_cons, h2, kerase_eq_filter_of_nodupKeys a l ndl]

theorem foldl_prune_entries [DecidableEq H] (N K : Nat) :
    ∀ (l : List (Sigma fun _ : H => msgHeadInfo)) (g : AList (fun _ : H => msgHeadInfo)),
      (l.foldl (fun g e =>
          if (e.2.blockN > 0 && e.2.blockN < N) || (e.2.keyblockN > 0 && e.2.keyblockN < K)
          then g.erase e.1 else g) g).entries
        = g.entries.filter (fun e' => decide (¬ ∃ e ∈ l, e.1 = e'.1 ∧ pruned N K e.2))
  | [], g => by simp
  | e :: l, g => by
    rw [List.foldl_cons, foldl_prune_entries N K l]
    by_cases hc : pruned N K e.2
    · have hc' := (cond_iff_pruned N K e.2).2 hc
      simp only [gt_iff_lt] at hc'
      rw [if_pos (by simpa using hc')]
      show List.filter _ (List.kerase e.1 g.entries) = _
      rw [kerase_eq_filter_of_nodupKeys e.1 g.entries g.nodupKeys, List.filter_filter]
      apply List.filter_congr
      intro e' _
      by_cases h1 : e'.1 = e.1
      · simp [h1, hc]
      · have h2 : ¬ e.1 = e'.1 := fun hh => h1 hh.symm
        simp [h1, h2]
    · have hc' : ¬ _ := fun hh => hc ((cond_iff_pruned N K e.2).1 hh)
      simp only [gt_iff_lt] at hc'
      rw [if_neg (by simpa using hc')]
      apply List.filter_congr
      intro e' _
      simp [hc]

theorem procBlockDone_entries [DecidableEq H] (s : netService H) (N K : Nat) :
    (procBlockDone s N K).gossipMsg.entries
      = s.gossipMsg.entries.filter (fun e => decide (¬ pruned N K e.2)) := by
  show (s.gossipMsg.entries.foldl _ s.gossipMsg).entries = _
  rw [foldl_prune_entries N K]
  apply List.filter_congr
  intro e' he'
  have key : (∃ e ∈ s.gossipMsg.entries, e.1 = e'.1 ∧ pruned N K e.2) ↔ pruned N K e'.2 := by
    constructor
    · rintro ⟨e, he, h1, h2⟩
      have := s.gossipMsg.nodupKeys.eq_of_fst_eq he he' h1
      exact this ▸ h2
    · intro h; exact ⟨e', he', rfl, h⟩
  simp [key]

theorem setIsRunning_true_eq (s : netService H) (a : String) :
    setIsRunning s a true =
      { s with
        goMap := Function.update s.goMap a (some 1)
        idDataMap :=
          if (s.goMap a).getD 0 = 0 ∧ s.idDataMap a = none
          then Function.update s.idDataMap a (some []) else s.idDataMap
        spawned := if (s.goMap a).getD 0 = 0 then s.spawned ++ [a] else s.spawned } := by
  unfold setIsRunning
  rcases hg : s.goMap a with _ | i
  · rcases hq : s.idDataMap a with _ | q <;> simp [hg, hq, Function.update_idem]
  · by_cases hi : i = 0
    · rcases hq : s.idDataMap a with _ | q <;> simp [hg, hq, hi]
    · simp [hg, hi]

theorem WF_newNetService (address : String) : (newNetService address : netService H).WF := by
  intro a i h; simp [newNetService] at h

theorem SendRawData_self (s : netService H) (msg : networkMsg) :
    SendRawData s s.serverAddress msg = some s := by
  simp [SendRawData]

theorem SendRawData_eq (s : netService H) (a : String) (msg : networkMsg) (hwf : s.WF)
    (ha : a ≠ s.serverAddress) :
    SendRawData s a msg = some
      { s with
        goMap := Function.update s.goMap a (some 1)
        idDataMap := Function.update s.idDataMap a (some ((s.idDataMap a).getD [] ++ [msg]))
        spawned := if (s.goMap a).getD 0 = 0 then s.spawned ++ [a] else s.spawned } := by
  unfold SendRawData
  rw [if_neg ha, setIsRunning_true_eq]
  rcases hq : s.idDataMap a with _ | q
  · rcases hg : s.goMap a with _ | i
    · simp [hq, hg]
    · by_cases hi : i = 0
      · simp [hq, hg, hi]
      · exact absurd hq (hwf a i hg hi)
  · simp [hq]

theorem Frame.refl (s : netService H) : Frame s s :=
  ⟨rfl, rfl, rfl, rfl, rfl, rfl⟩

theorem Frame.trans {s t u : netService H} (h1 : Frame s t) (h2 : Frame t u) : Frame s u :=
  ⟨h2.gossipMsg.trans h1.gossipMsg, h2.acked.trans h1.acked, h2.curBlockN.trans h1.curBlockN,
   h2.curKeyBlockN.trans h1.curKeyBlockN, h2.serverAddress.trans h1.serverAddress,
   h2.sent.trans h1.sent⟩

theorem setIsRunning_frame (s : netService H) (a : String) (isStart : Bool) :
    Frame s (setIsRunning s a isStart) ∧
      ∀ b, b ≠ a → (setIsRunning s a isStart).idDataMap b = s.idDataMap b ∧
        (setIsRunning s a isStart).goMap b = s.goMap b := by
  cases isStart
  · unfold setIsRunning
    rcases hg : s.goMap a with _ | i
    · refine ⟨by simp [hg]; exact ⟨rfl, rfl, rfl, rfl, rfl, rfl⟩, fun b hb => ?_⟩
      simp [hg, Function.update_noteq hb]
    · by_cases hi : i = 1
      · refine ⟨by simp [hg, hi]; exact ⟨rfl, rfl, rfl, rfl, rfl, rfl⟩, fun b hb => ?_⟩
        simp [hg, hi, Function.update_noteq hb]
      · refine ⟨by simp [hg, hi]; exact ⟨rfl, rfl, rfl, rfl, rfl, rfl⟩, fun b hb => ?_⟩
        simp [hg, hi]
  · rw [setIsRunning_true_eq]
    refine ⟨⟨rfl, rfl, rfl, rfl, rfl, rfl⟩, fun b hb => ?_⟩
    constructor
    · show (if _ then _ else _ : String → Option (List networkMsg)) b = _
      split
      · exact Function.update_noteq hb _ _
      · rfl
    · exact Function.update_noteq hb _ _

theorem SendRawData_frame (s t : netService H) (a : String) (msg : networkMsg)
    (h : SendRawData s a msg = some t) :
    Frame s t ∧ ∀ b, b ≠ a → t.idDataMap b = s.idDataMap b ∧ t.goMap b = s.goMap b := by
  unfold SendRawData at h
  by_cases ha : a = s.serverAddress
  · rw [if_pos ha] at h
    cases h
    exact ⟨Frame.refl s, fun _ _ => ⟨rfl, rfl⟩⟩
  · rw [if_neg ha] at h
    obtain ⟨hf, hun⟩ := setIsRunning_frame s a true
    rcases hq : (setIsRunning s a true).idDataMap a with _ | q
    · simp [hq] at h
    · simp only [hq, Option.some.injEq] at h
      subst h
      refine ⟨⟨hf.gossipMsg, hf.acked, hf.curBlockN, hf.curKeyBlockN, hf.serverAddress, hf.sent⟩,
        fun b hb => ⟨?_, (hun b hb).2⟩⟩
      show Function.update _ a _ b = _
      rw [Function.update_noteq hb]
      exact (hun b hb).1

theorem SendRawData_total (s : netService H) (a : String) (msg : networkMsg) (hwf : s.WF) :
    ∃ t, SendRawData s a msg = some t ∧ t.WF := by
  by_cases ha : a = s.serverAddress
  · subst ha
    exact ⟨s, SendRawData_self s msg, hwf⟩
  · refine ⟨_, SendRawData_eq s a msg hwf ha, ?_⟩
    intro b i hb hi
    by_cases hba : b = a
    · subst hba; simp
    · simp only [Function.update_noteq hba] at hb ⊢
      exact hwf b i hb hi

theorem broadcastLoop_frame (mblist : List CommitteeMember) (msg : networkMsg) :
    ∀ (positions : List (Nat × Nat)) (s t : netService H),
      broadcastLoop mblist msg positions s = some t →
      Frame s t ∧
        ∀ a, (∀ mbr ∈ mblist, mbr.Address = a → mbr.isSelf = true) →
          t.idDataMap a = s.idDataMap a ∧ t.goMap a = s.goMap a
  | [], s, t, h => by
    simp only [broadcastLoop, Option.some.injEq] at h
    subst h
    exact ⟨Frame.refl s, fun _ _ => ⟨rfl, rfl⟩⟩
  | (i, v) :: rest, s, t, h => by
    unfold broadcastLoop at h
    rcases hget : mblist[i]? with _ | mbr
    · simp [hget] at h
    · have hmem : mbr ∈ mblist := List.getElem?_mem hget
      simp only [hget] at h
      by_cases hself : mbr.isSelf = true
      · simp only [hself, if_true] at h
        exact broadcastLoop_frame mblist msg rest s t h
      · simp only [hself] at h
        rcases h1 : SendRawData s mbr.Address msg with _ | s1
        · simp [h1] at h
        · simp only [h1] at h
          obtain ⟨hf1, hun1⟩ := SendRawData_frame s s1 mbr.Address msg h1
          obtain ⟨hf2, hun2⟩ := broadcastLoop_frame mblist msg rest s1 t h
          refine ⟨hf1.trans hf2, fun a ha => ?_⟩
          have hne : a ≠ mbr.Address := fun hh => hself (ha _ hmem hh.symm)
          exact ⟨(hun2 a ha).1.trans (hun1 a hne).1, (hun2 a ha).2.trans (hun1 a hne).2⟩

theorem broadcastLoop_total (mblist : List CommitteeMember) (msg : networkMsg) :
    ∀ (positions : List (Nat × Nat)) (s : netService H), s.WF →
      (∀ p ∈ positions, p.1 < mblist.length) →
      ∃ t, broadcastLoop mblist msg positions s = some t ∧ t.WF
  | [], s, hwf, _ => ⟨s, rfl, hwf⟩
  | (i, v) :: rest, s, hwf, hpos => by
    have hi : i < mblist.length := hpos (i, v) (List.mem_cons_self _ _)
    have hrest : ∀ p ∈ rest, p.1 < mblist.length := fun p hp => hpos p (List.mem_cons_of_mem _ hp)
    have hget : mblist[i]? = some mblist[i] := List.getElem?_eq_getElem hi
    unfold broadcastLoop
    rw [hget]
    by_cases hself : mblist[i].isSelf = true
    · simp only [hself, if_true]
      exact broadcastLoop_total mblist msg rest s hwf hrest
    · obtain ⟨s1, h1, hwf1⟩ := SendRawData_total s mblist[i].Address msg hwf
      obtain ⟨t, h2, hwf2⟩ := broadcastLoop_total mblist msg rest s1 hwf1 hrest
      refine ⟨t, ?_, hwf2⟩
      simp only [hself, h1]
      exact h2

theorem broadcastLoop_positions (mblist : List CommitteeMember) (msg : networkMsg) :
    ∀ (ps qs : List (Nat × Nat)) (s : netService H), ps.map Prod.fst = qs.map Prod.fst →
      broadcastLoop mblist msg ps s = broadcastLoop mblist msg qs s
  | [], [], _, _ => rfl
  | [], _ :: _, _, h => by simp at h
  | _ :: _, [], _, h => by simp at h
  | (i, v) :: ps, (j, w) :: qs, s, h => by
    simp only [List.map_cons, List.cons.injEq] at h
    obtain ⟨hij, hrest⟩ := h
    subst hij
    unfold broadcastLoop
    rcases mblist[i]? with _ | mbr
    · rfl
    · by_cases hself : mbr.isSelf = true
      · simp only [hself, if_true]
        exact broadcastLoop_positions mblist msg ps qs s hrest
      · simp only [hself]
        rcases SendRawData s mbr.Address msg with _ | s1
        · rfl
        · exact broadcastLoop_positions mblist msg ps qs s1 hrest

theorem broadcastLoop_enum_length (mblist : List CommitteeMember) (msg : networkMsg)
    (l1 l2 : List Nat) (s : netService H) (h : l1.length = l2.length) :
    broadcastLoop mblist msg l1.enum s = broadcastLoop mblist msg l2.enum s :=
  broadcastLoop_positions mblist msg l1.enum l2.enum s (by simp [List.enum_map_fst, h])

theorem broadcast_frame [DecidableEq H] (rlpHash : networkMsg → H) (env : Env)
    (s t : netService H) (msg msg1 : networkMsg)
    (h : broadcast rlpHash env s msg = some (t, msg1)) :
    msg1 = { msg with MsgFlag := Gossip_MSG } ∧
      t.acked = s.acked ∧ t.curBlockN = s.curBlockN ∧ t.curKeyBlockN = s.curKeyBlockN ∧
      t.serverAddress = s.serverAddress ∧ t.sent = s.sent ∧
      t.gossipMsg =
        (match env.currentMember with
         | none => s.gossipMsg
         | some _ =>
           s.gossipMsg.insert (rlpHash { msg with MsgFlag := Gossip_MSG })
             (getMsgHeadInfo { msg with MsgFlag := Gossip_MSG })) ∧
      ∀ a, (∀ mblist, env.currentMember = some mblist →
              ∀ mbr ∈ mblist, mbr.Address = a → mbr.isSelf = true) →
        t.idDataMap a = s.idDataMap a ∧ t.goMap a = s.goMap a := by
  unfold broadcast at h
  rcases hmb : env.currentMember with _ | mblist
  · simp only [hmb, Option.some.injEq, Prod.mk.injEq] at h
    obtain ⟨rfl, rfl⟩ := h
    exact ⟨rfl, rfl, rfl, rfl, rfl, rfl, rfl, fun _ _ => ⟨rfl, rfl⟩⟩
  · simp only [hmb] at h
    rcases hl : broadcastLoop mblist { msg with MsgFlag := Gossip_MSG }
        (env.randIntArray env.committeeLen ((env.committeeLen * 4 / 10) + 1)).enum
        { s with gossipMsg := s.gossipMsg.insert (rlpHash { msg with MsgFlag := Gossip_MSG })
                   (getMsgHeadInfo { msg with MsgFlag := Gossip_MSG }) } with _ | t1
    · simp [hl] at h
    · simp only [hl, Option.some.injEq, Prod.mk.injEq] at h
      obtain ⟨rfl, rfl⟩ := h
      obtain ⟨hf, hun⟩ := broadcastLoop_frame mblist _ _ _ _ hl
      exact ⟨rfl, hf.acked, hf.curBlockN, hf.curKeyBlockN, hf.serverAddress, hf.sent,
        hf.gossipMsg, fun a ha => hun a (ha mblist rfl)⟩

theorem broadcast_total [DecidableEq H] (rlpHash : networkMsg → H) (env : Env)
    (s : netService H) (msg : networkMsg) (hwf : s.WF) (hin : env.inRange = true) :
    ∃ t, broadcast rlpHash env s msg = some (t, { msg with MsgFlag := Gossip_MSG }) ∧ t.WF := by
  unfold broadcast
  rcases hmb : env.currentMember with _ | mblist
  · exact ⟨s, rfl, hwf⟩
  · have hlen : (env.randIntArray env.committeeLen ((env.committeeLen * 4 / 10) + 1)).length
        ≤ mblist.length := by
      simpa [Env.inRange, hmb] using hin
    obtain ⟨t, ht, hwft⟩ :=
      broadcastLoop_total mblist { msg with MsgFlag := Gossip_MSG }
        (env.randIntArray env.committeeLen ((env.committeeLen * 4 / 10) + 1)).enum
        { s with gossipMsg := s.gossipMsg.insert (rlpHash { msg with MsgFlag := Gossip_MSG })
                   (getMsgHeadInfo { msg with MsgFlag := Gossip_MSG }) }
        hwf (fun p hp => lt_of_lt_of_le (List.fst_lt_of_mem_enum hp) hlen)
    exact ⟨t, by simp only [ht], hwft⟩

theorem procBlockDone_lookup [DecidableEq H] (s : netService H) (N K : Nat) (k : H)
    (h : msgHeadInfo) :
    (procBlockDone s N K).gossipMsg.lookup k = some h ↔
      (s.gossipMsg.lookup k = some h ∧ ¬ pruned N K h) := by
  have e1 := AList.mem_lookup_iff (a := k) (b := h) (s := (procBlockDone s N K).gossipMsg)
  have e2 := AList.mem_lookup_iff (a := k) (b := h) (s := s.gossipMsg)
  simp only [Option.mem_def] at e1 e2
  rw [e1, e2, procBlockDone_entries, List.mem_filter]
  simp

theorem IgnoreMsg_iff_stale (s : netService H) (m : networkMsg) :
    IgnoreMsg s m = true ↔ stale s.curBlockN s.curKeyBlockN m := by
  unfold IgnoreMsg stale
  rcases hc : m.Cmsg with _ | c
  · rcases hb : m.Bmsg with _ | b
    · rcases hh : m.Hmsg with _ | h <;> simp
    · simp
  · simp

theorem IgnoreMsg_congr (s t : netService H) (m : networkMsg)
    (h1 : t.curBlockN = s.curBlockN) (h2 : t.curKeyBlockN = s.curKeyBlockN) :
    IgnoreMsg t m = IgnoreMsg s m := by
  unfold IgnoreMsg
  rw [h1, h2]

theorem stale_mono {N K N1 K1 : Nat} {m : networkMsg} (hN : N ≤ N1) (hK : K ≤ K1)
    (h : stale N K m) : stale N1 K1 m := by
  rcases h with ⟨c, hc, h⟩ | ⟨h0, b, hb, h⟩ | ⟨h0, h1, x, hx, h⟩
  · exact Or.inl ⟨c, hc, lt_of_lt_of_le h hK⟩
  · exact Or.inr (Or.inl ⟨h0, b, hb, lt_of_lt_of_le h hK⟩)
  · exact Or.inr (Or.inr ⟨h0, h1, x, hx, lt_of_lt_of_le h hN⟩)

theorem stale_of_pruned (N K : Nat) (m : networkMsg) (h : pruned N K (getMsgHeadInfo m)) :
    stale N K m := by
  unfold getMsgHeadInfo at h
  unfold stale
  rcases hc : m.Cmsg with _ | c
  · rcases hb : m.Bmsg with _ | b
    · rcases hh : m.Hmsg with _ | x
      · simp [hc, hb, hh, pruned] at h
      · simp [hc, hb, hh, pruned] at h
        simp [h.2]
    · simp [hc, hb, pruned] at h
      simp [h.2]
  · simp [hc, pruned] at h
    simp [h.2]

theorem handle_stale [DecidableEq H] (rlpHash : networkMsg → H) (env : Env) (s : netService H)
    (a : String) (m : networkMsg) (hi : IgnoreMsg s m = true) :
    handleNetworkMsgAck rlpHash env s ⟨a, Payload.net m⟩ = some s := by
  simp [handleNetworkMsgAck, hi]

theorem handle_dup [DecidableEq H] (rlpHash : networkMsg → H) (env : Env) (s : netService H)
    (a : String) (m : networkMsg) (x : msgHeadInfo) (hi : IgnoreMsg s m = false)
    (hg : (m.MsgFlag &&& Gossip_MSG) > 0) (hl : s.gossipMsg.lookup (rlpHash m) = some x) :
    handleNetworkMsgAck rlpHash env s ⟨a, Payload.net m⟩ = some s := by
  simp only [handleNetworkMsgAck, hi, hg, hl]
  simp

theorem handle_plain [DecidableEq H] (rlpHash : networkMsg → H) (env : Env) (s : netService H)
    (a : String) (m : networkMsg) (hi : IgnoreMsg s m = false)
    (hg : ¬ (m.MsgFlag &&& Gossip_MSG) > 0) :
    handleNetworkMsgAck rlpHash env s ⟨a, Payload.net m⟩
      = some { s with acked := s.acked ++ [(a, m)] } := by
  simp only [handleNetworkMsgAck, hi, hg]
  simp

theorem handle_fresh [DecidableEq H] (rlpHash : networkMsg → H) (env : Env) (s : netService H)
    (a : String) (m : networkMsg) (hi : IgnoreMsg s m = false)
    (hg : (m.MsgFlag &&& Gossip_MSG) > 0) (hl : s.gossipMsg.lookup (rlpHash m) = none) :
    handleNetworkMsgAck rlpHash env s ⟨a, Payload.net m⟩
      = (broadcast rlpHash env s m).map
          (fun r => { r.1 with acked := r.1.acked ++ [(a, r.2)] }) := by
  simp only [handleNetworkMsgAck, hi, hg, hl]
  rcases broadcast rlpHash env s m with _ | r
  · simp
  · simp

theorem handleNetworkMsgAck_progress [DecidableEq H] (rlpHash : networkMsg → H) (env : Env)
    (s t : netService H) (e : Envelope) (h : handleNetworkMsgAck rlpHash env s e = some t) :
    t.curBlockN = s.curBlockN ∧ t.curKeyBlockN = s.curKeyBlockN := by
  obtain ⟨a, p⟩ := e
  cases p with
  | heartBeat hb =>
    simp only [handleNetworkMsgAck, Option.some.injEq] at h
    subst h; exact ⟨rfl, rfl⟩
  | net m =>
    rcases hi : IgnoreMsg s m with _ | _
    · by_cases hg : (m.MsgFlag &&& Gossip_MSG) > 0
      · rcases hl : s.gossipMsg.lookup (rlpHash m) with _ | x
        · rw [handle_fresh rlpHash env s a m hi hg hl] at h
          rcases hbc : broadcast rlpHash env s m with _ | r
          · simp [hbc] at h
          · obtain ⟨t1, m1⟩ := r
            simp only [hbc, Option.map_some', Option.some.injEq] at h
            subst h
            obtain ⟨-, -, h1, h2, -⟩ := broadcast_frame rlpHash env s t1 m m1 hbc
            exact ⟨h1, h2⟩
        · rw [handle_dup rlpHash env s a m x hi hg hl] at h
          cases h; exact ⟨rfl, rfl⟩
      · rw [handle_plain rlpHash env s a m hi hg] at h
        cases h; exact ⟨rfl, rfl⟩
    · rw [handle_stale rlpHash env s a m hi] at h
      cases h; exact ⟨rfl, rfl⟩

theorem loop_iddata_pass_stop (s : netService H) (a : String) (nb : Nat)
    (h : s.goMap a ≠ some 1) :
    loop_iddata_pass s a nb = ({ s with goMap := Function.update s.goMap a (some 0) }, false) := by
  simp [loop_iddata_pass, h]

theorem loop_iddata_pass_wait (s : netService H) (a : String) (nb : Nat)
    (h : s.goMap a = some 1) (hnb : nb > 1) : loop_iddata_pass s a nb = (s, true) := by
  simp [loop_iddata_pass, h, hnb]

theorem loop_iddata_pass_empty (s : netService H) (a : String) (nb : Nat)
    (h : s.goMap a = some 1) (hnb : ¬ nb > 1)
    (hq : s.idDataMap a = none ∨ s.idDataMap a = some []) :
    loop_iddata_pass s a nb = (s, true) := by
  rcases hq with hq | hq <;> simp [loop_iddata_pass, h, hnb, hq]

theorem loop_iddata_pass_drop (s : netService H) (a : String) (nb : Nat) (m : networkMsg)
    (q : List networkMsg) (h : s.goMap a = some 1) (hnb : ¬ nb > 1)
    (hq : s.idDataMap a = some (m :: q)) (hi : IgnoreMsg s m = true) :
    loop_iddata_pass s a nb
      = ({ s with idDataMap := Function.update s.idDataMap a (some q) }, true) := by
  have hi1 : IgnoreMsg ({ s with idDataMap := Function.update s.idDataMap a (some q) } :
      netService H) m = true := hi
  simp [loop_iddata_pass, h, hnb, hq, hi1]

theorem loop_iddata_pass_send (s : netService H) (a : String) (nb : Nat) (m : networkMsg)
    (q : List networkMsg) (h : s.goMap a = some 1) (hnb : ¬ nb > 1)
    (hq : s.idDataMap a = some (m :: q)) (hi : IgnoreMsg s m = false) :
    loop_iddata_pass s a nb
      = ({ s with idDataMap := Function.update s.idDataMap a (some q)
                  sent := s.sent ++ [(a, m)] }, true) := by
  have hi1 : IgnoreMsg ({ s with idDataMap := Function.update s.idDataMap a (some q) } :
      netService H) m = false := hi
  simp [loop_iddata_pass, h, hnb, hq, hi1]

/-- What a pass of the worker does, by cases. -/
theorem loop_iddata_pass_cases (s : netService H) (a : String) (nb : Nat) :
    ((loop_iddata_pass s a nb).1.curBlockN = s.curBlockN ∧
      (loop_iddata_pass s a nb).1.curKeyBlockN = s.curKeyBlockN) ∧
    ((loop_iddata_pass s a nb).1.sent = s.sent ∨
      ∃ m, IgnoreMsg s m = false ∧ (loop_iddata_pass s a nb).1.sent = s.sent ++ [(a, m)]) := by
  by_cases h : s.goMap a = some 1
  · by_cases hnb : nb > 1
    · rw [loop_iddata_pass_wait s a nb h hnb]
      exact ⟨⟨rfl, rfl⟩, Or.inl rfl⟩
    · rcases hq : s.idDataMap a with _ | l
      · rw [loop_iddata_pass_empty s a nb h hnb (Or.inl hq)]
        exact ⟨⟨rfl, rfl⟩, Or.inl rfl⟩
      · cases l with
        | nil =>
          rw [loop_iddata_pass_empty s a nb h hnb (Or.inr hq)]
          exact ⟨⟨rfl, rfl⟩, Or.inl rfl⟩
        | cons m q =>
          rcases hi : IgnoreMsg s m with _ | _
          · rw [loop_iddata_pass_send s a nb m q h hnb hq hi]
            exact ⟨⟨rfl, rfl⟩, Or.inr ⟨m, hi, rfl⟩⟩
          · rw [loop_iddata_pass_drop s a nb m q h hnb hq hi]
            exact ⟨⟨rfl, rfl⟩, Or.inl rfl⟩
  · rw [loop_iddata_pass_stop s a nb h]
    exact ⟨⟨rfl, rfl⟩, Or.inl rfl⟩

theorem step_progress_le [DecidableEq H] {rlpHash : networkMsg → H} {s t : netService H}
    (h : Step rlpHash s t) : s.curBlockN ≤ t.curBlockN ∧ s.curKeyBlockN ≤ t.curKeyBlockN := by
  cases h
  case handle env e h =>
    obtain ⟨h1, h2⟩ := handleNetworkMsgAck_progress rlpHash env s t e h
    exact ⟨h1.ge, h2.ge⟩
  case bcast env m m1 h =>
    obtain ⟨-, -, h1, h2, -⟩ := broadcast_frame rlpHash env s t m m1 h
    exact ⟨h1.ge, h2.ge⟩
  case send a m h =>
    obtain ⟨hf, -⟩ := SendRawData_frame s t a m h
    exact ⟨hf.curBlockN.ge, hf.curKeyBlockN.ge⟩
  case setRunning a b =>
    obtain ⟨hf, -⟩ := setIsRunning_frame s a b
    exact ⟨hf.curBlockN.ge, hf.curKeyBlockN.ge⟩
  case worker a nb =>
    obtain ⟨⟨h1, h2⟩, -⟩ := loop_iddata_pass_cases s a nb
    exact ⟨h1.ge, h2.ge⟩
  case progress N K hN hK => exact ⟨hN, hK⟩

theorem later_progress_le [DecidableEq H] {rlpHash : networkMsg → H} {s t : netService H}
    (h : Later rlpHash s t) : s.curBlockN ≤ t.curBlockN ∧ s.curKeyBlockN ≤ t.curKeyBlockN := by
  induction h with
  | refl => exact ⟨le_rfl, le_rfl⟩
  | tail _ hstep ih =>
    obtain ⟨h1, h2⟩ := step_progress_le hstep
    exact ⟨ih.1.trans h1, ih.2.trans h2⟩

theorem WF_setIsRunning (s : netService H) (a : String) (isStart : Bool) (hwf : s.WF) :
    (setIsRunning s a isStart).WF := by
  cases isStart
  · intro b i hb hi
    obtain ⟨-, hun⟩ := setIsRunning_frame s a false
    by_cases hba : b = a
    · subst hba
      have hq : (setIsRunning s b false).idDataMap b = s.idDataMap b := by
        unfold setIsRunning
        rcases hg : s.goMap b with _ | j
        · simp [hg]
        · by_cases hj : j = 1 <;> simp [hg, hj]
      rw [hq]
      rcases hg : s.goMap b with _ | j
      · simp [setIsRunning, hg] at hb
        exact absurd hb.symm hi
      · by_cases hj : j = 1
        · exact hwf b j hg (by omega)
        · simp [setIsRunning, hg, hj] at hb
          exact hwf b j hg (hb ▸ hi)
    · rw [(hun b hba).1]
      rw [(hun b hba).2] at hb
      exact hwf b i hb hi
  · rw [setIsRunning_true_eq]
    intro b i hb hi
    by_cases hba : b = a
    · subst hba
      show (if _ then _ else _ : String → Option (List networkMsg)) b ≠ none
      split
      · simp
      · rename_i hcond
        rcases hg : s.goMap b with _ | j
        · simp [hg] at hcond
          exact hcond
        · by_cases hj : j = 0
          · simp [hg, hj] at hcond
            exact hcond
          · exact hwf b j hg hj
    · simp only [Function.update_noteq hba] at hb
      show (if _ then _ else _ : String → Option (List networkMsg)) b ≠ none
      split
      · rw [Function.update_noteq hba]
        exact hwf b i hb hi
      · exact hwf b i hb hi

theorem WF_SendRawData (s t : netService H) (a : String) (msg : networkMsg)
    (h : SendRawData s a msg = some t) (hwf : s.WF) : t.WF := by
  obtain ⟨t1, h1, hwf1⟩ := SendRawData_total s a msg hwf
  rw [h] at h1
  cases h1
  exact hwf1

theorem WF_broadcastLoop (mblist : List CommitteeMember) (msg : networkMsg) :
    ∀ (positions : List (Nat × Nat)) (s t : netService H),
      broadcastLoop mblist msg positions s = some t → s.WF → t.WF
  | [], s, t, h, hwf => by
    simp only [broadcastLoop, Option.some.injEq] at h
    subst h
    exact hwf
  | (i, v) :: rest, s, t, h, hwf => by
    unfold broadcastLoop at h
    rcases hget : mblist[i]? with _ | mbr
    · simp [hget] at h
    · simp only [hget] at h
      by_cases hself : mbr.isSelf = true
      · simp only [hself, if_true] at h
        exact WF_broadcastLoop mblist msg rest s t h hwf
      · simp only [hself] at h
        rcases h1 : SendRawData s mbr.Address msg with _ | s1
        · simp [h1] at h
        · simp only [h1] at h
          exact WF_broadcastLoop mblist msg rest s1 t h (WF_SendRawData s s1 _ msg h1 hwf)

theorem WF_broadcast [DecidableEq H] (rlpHash : networkMsg → H) (env : Env)
    (s t : netService H) (msg msg1 : networkMsg)
    (h : broadcast rlpHash env s msg = some (t, msg1)) (hwf : s.WF) : t.WF := by
  unfold broadcast at h
  rcases hmb : env.currentMember with _ | mblist
  · simp only [hmb, Option.some.injEq, Prod.mk.injEq] at h
    obtain ⟨rfl, -⟩ := h
    exact hwf
  · simp only [hmb] at h
    rcases hl : broadcastLoop mblist { msg with MsgFlag := Gossip_MSG }
        (env.randIntArray env.committeeLen ((env.committeeLen * 4 / 10) + 1)).enum
        { s with gossipMsg := s.gossipMsg.insert (rlpHash { msg with MsgFlag := Gossip_MSG })
                   (getMsgHeadInfo { msg with MsgFlag := Gossip_MSG }) } with _ | t1
    · simp [hl] at h
    · simp only [hl, Option.some.injEq, Prod.mk.injEq] at h
      obtain ⟨rfl, -⟩ := h
      exact WF_broadcastLoop mblist _ _ _ _ hl hwf

theorem WF_handleNetworkMsgAck [DecidableEq H] (rlpHash : networkMsg → H) (env : Env)
    (s t : netService H) (e : Envelope) (h : handleNetworkMsgAck rlpHash env s e = some t)
    (hwf : s.WF) : t.WF := by
  obtain ⟨a, p⟩ := e
  cases p with
  | heartBeat hb =>
    simp only [handleNetworkMsgAck, Option.some.injEq] at h
    subst h; exact hwf
  | net m =>
    rcases hi : IgnoreMsg s m with _ | _
    · by_cases hg : (m.MsgFlag &&& Gossip_MSG) > 0
      · rcases hl : s.gossipMsg.lookup (rlpHash m) with _ | x
        · rw [handle_fresh rlpHash env s a m hi hg hl] at h
          rcases hbc : broadcast rlpHash env s m with _ | r
          · simp [hbc] at h
          · obtain ⟨t1, m1⟩ := r
            simp only [hbc, Option.map_some', Option.some.injEq] at h
            subst h
            exact WF_broadcast rlpHash env s t1 m m1 hbc hwf
        · rw [handle_dup rlpHash env s a m x hi hg hl] at h
          cases h; exact hwf
      · rw [handle_plain rlpHash env s a m hi hg] at h
        cases h; exact hwf
    · rw [handle_stale rlpHash env s a m hi] at h
      cases h; exact hwf

theorem WF_loop_iddata_pass (s : netService H) (a : String) (nb : Nat) (hwf : s.WF) :
    (loop_iddata_pass s a nb).1.WF := by
  by_cases h : s.goMap a = some 1
  · by_cases hnb : nb > 1
    · rw [loop_iddata_pass_wait s a nb h hnb]; exact hwf
    · have pop : ∀ q : List networkMsg,
          ({ s with idDataMap := Function.update s.idDataMap a (some q) } : netService H).WF := by
        intro q b i hb hi
        by_cases hba : b = a
        · subst hba; simp
        · show Function.update s.idDataMap a (some q) b ≠ none
          rw [Function.update_noteq hba]
          exact hwf b i hb hi
      rcases hq : s.idDataMap a with _ | l
      · rw [loop_iddata_pass_empty s a nb h hnb (Or.inl hq)]; exact hwf
      · cases l with
        | nil => rw [loop_iddata_pass_empty s a nb h hnb (Or.inr hq)]; exact hwf
        | cons m q =>
          rcases hi : IgnoreMsg s m with _ | _
          · rw [loop_iddata_pass_send s a nb m q h hnb hq hi]
            exact pop q
          · rw [loop_iddata_pass_drop s a nb m q h hnb hq hi]
            exact pop q
  · rw [loop_iddata_pass_stop s a nb h]
    intro b i hb hi
    by_cases hba : b = a
    · subst hba
      simp at hb
      exact absurd hb.symm hi
    · simp only [Function.update_noteq hba] at hb
      exact hwf b i hb hi

theorem WF_step [DecidableEq H] {rlpHash : networkMsg → H} {s t : netService H}
    (h : Step rlpHash s t) (hwf : s.WF) : t.WF := by
  cases h
  case handle env e h => exact WF_handleNetworkMsgAck rlpHash env s t e h hwf
  case bcast env m m1 h => exact WF_broadcast rlpHash env s t m m1 h hwf
  case send a m h => exact WF_SendRawData s t a m h hwf
  case setRunning a b => exact WF_setIsRunning s a b hwf
  case worker a nb => exact WF_loop_iddata_pass s a nb hwf
  case progress N K hN hK => exact hwf

/-- Every state reached from `newNetService` is well formed. -/
theorem WF_of_later [DecidableEq H] {rlpHash : networkMsg → H} (address : String)
    {t : netService H} (h : Later rlpHash (newNetService address) t) : t.WF := by
  induction h with
  | refl => exact WF_newNetService address
  | tail _ hstep ih => exact WF_step hstep ih

theorem isOverdue_iff (now heatBeatTimeout : Int) (a : ackInfo) :
    isOverdue now a heatBeatTimeout = true ↔ timeSub now a.tm > heatBeatTimeout := by
  simp [isOverdue]

theorem timeSub_eq_sub (t u : Int) (h1 : t - u ≤ maxDuration) (h2 : minDuration ≤ t - u) :
    timeSub t u = t - u := by
  unfold timeSub
  rw [if_neg (by omega), if_neg (by omega)]

/-- A peer without a record gets the zero instant, and is overdue for every timeout
below the largest duration once the clock is more than that duration past the
zero instant. -/
theorem overdue_without_record (addr : String) (now heatBeatTimeout : Int)
    (hnow : maxDuration < now) (ht : heatBeatTimeout < maxDuration) :
    isOverdue now (getAckInfo HeartBeat.init addr).2 heatBeatTimeout = true := by
  have h0 : (getAckInfo HeartBeat.init addr).2.tm = 0 := rfl
  rw [isOverdue_iff, h0]
  unfold timeSub
  rw [if_pos (by omega)]
  exact ht

theorem handle_heartBeat [DecidableEq H] (rlpHash : networkMsg → H) (env : Env)
    (s : netService H) (a : String) (hb : heartBeatMsg) :
    handleNetworkMsgAck rlpHash env s ⟨a, Payload.heartBeat hb⟩ = some s := rfl

/-- The cache after one operation other than `procBlockDone`: unchanged, or with
one digest recorded by `broadcast`. -/
theorem traffic_cache [DecidableEq H] {rlpHash : networkMsg → H} {s t : netService H}
    (h : Traffic rlpHash s t) :
    t.curBlockN = s.curBlockN ∧ t.curKeyBlockN = s.curKeyBlockN ∧
      (t.gossipMsg = s.gossipMsg ∨
        ∃ m : networkMsg, t.gossipMsg =
          s.gossipMsg.insert (rlpHash { m with MsgFlag := Gossip_MSG }) (getMsgHeadInfo m)) := by
  have bc : ∀ (env : Env) (m m1 : networkMsg) (t1 : netService H),
      broadcast rlpHash env s m = some (t1, m1) →
      t1.curBlockN = s.curBlockN ∧ t1.curKeyBlockN = s.curKeyBlockN ∧
        (t1.gossipMsg = s.gossipMsg ∨
          ∃ m : networkMsg, t1.gossipMsg =
            s.gossipMsg.insert (rlpHash { m with MsgFlag := Gossip_MSG }) (getMsgHeadInfo m)) := by
    intro env m m1 t1 hb
    obtain ⟨-, -, h1, h2, -, -, hg, -⟩ := broadcast_frame rlpHash env s t1 m m1 hb
    refine ⟨h1, h2, ?_⟩
    rcases hc : env.currentMember with _ | l
    · rw [hc] at hg; exact Or.inl hg
    · rw [hc] at hg; exact Or.inr ⟨m, hg⟩
  cases h
  case handle env e h =>
    obtain ⟨a, p⟩ := e
    cases p with
    | heartBeat hb =>
      rw [handle_heartBeat] at h
      cases h; exact ⟨rfl, rfl, Or.inl rfl⟩
    | net m =>
      rcases hi : IgnoreMsg s m with _ | _
      · by_cases hg : (m.MsgFlag &&& Gossip_MSG) > 0
        · rcases hl : s.gossipMsg.lookup (rlpHash m) with _ | x
          · rw [handle_fresh rlpHash env s a m hi hg hl] at h
            rcases hbc : broadcast rlpHash env s m with _ | r
            · simp [hbc] at h
            · obtain ⟨t1, m1⟩ := r
              simp only [hbc, Option.map_some', Option.some.injEq] at h
              subst h
              exact bc env m m1 t1 hbc
          · rw [handle_dup rlpHash env s a m x hi hg hl] at h
            cases h; exact ⟨rfl, rfl, Or.inl rfl⟩
        · rw [handle_plain rlpHash env s a m hi hg] at h
          cases h; exact ⟨rfl, rfl, Or.inl rfl⟩
      · rw [handle_stale rlpHash env s a m hi] at h
        cases h; exact ⟨rfl, rfl, Or.inl rfl⟩
  case bcast env m m1 h => exact bc env m m1 t h
  case send a m h =>
    obtain ⟨hf, -⟩ := SendRawData_frame s t a m h
    exact ⟨hf.curBlockN, hf.curKeyBlockN, Or.inl hf.gossipMsg⟩
  case setRunning a b =>
    obtain ⟨hf, -⟩ := setIsRunning_frame s a b
    exact ⟨hf.curBlockN, hf.curKeyBlockN, Or.inl hf.gossipMsg⟩
  case worker a nb =>
    obtain ⟨⟨h1, h2⟩, -⟩ := loop_iddata_pass_cases s a nb
    refine ⟨h1, h2, Or.inl ?_⟩
    by_cases h : s.goMap a = some 1
    · by_cases hnb : nb > 1
      · rw [loop_iddata_pass_wait s a nb h hnb]
      · rcases hq : s.idDataMap a with _ | l
        · rw [loop_iddata_pass_empty s a nb h hnb (Or.inl hq)]
        · cases l with
          | nil => rw [loop_iddata_pass_empty s a nb h hnb (Or.inr hq)]
          | cons m q =>
            rcases hi : IgnoreMsg s m with _ | _
            · rw [loop_iddata_pass_send s a nb m q h hnb hq hi]
            · rw [loop_iddata_pass_drop s a nb m q h hnb hq hi]
    · rw [loop_iddata_pass_stop s a nb h]

/-- A recorded message after one non-lowering progress notification: still
recorded, or ignored. -/
theorem recorded_progress [DecidableEq H] (s : netService H) (k : H) (m : networkMsg)
    (N K : Nat) (hN : s.curBlockN ≤ N) (hK : s.curKeyBlockN ≤ K)
    (h : s.gossipMsg.lookup k = some (getMsgHeadInfo m) ∨ IgnoreMsg s m = true) :
    (procBlockDone s N K).gossipMsg.lookup k = some (getMsgHeadInfo m) ∨
      IgnoreMsg (procBlockDone s N K) m = true := by
  rcases h with h | h
  · by_cases hp : pruned N K (getMsgHeadInfo m)
    · exact Or.inr ((IgnoreMsg_iff_stale (procBlockDone s N K) m).2 (stale_of_pruned N K m hp))
    · exact Or.inl ((procBlockDone_lookup s N K k _).2 ⟨h, hp⟩)
  · have hst : stale s.curBlockN s.curKeyBlockN m := (IgnoreMsg_iff_stale s m).1 h
    exact Or.inr ((IgnoreMsg_iff_stale (procBlockDone s N K) m).2 (stale_mono hN hK hst))

/-- A recorded message after one operation other than `procBlockDone`, the digest
being injective: still recorded, or ignored. -/
theorem recorded_traffic [DecidableEq H] {rlpHash : networkMsg → H}
    (hinj : Function.Injective rlpHash) {s t : netService H} (m : networkMsg)
    (hstep : Traffic rlpHash s t)
    (h : s.gossipMsg.lookup (rlpHash { m with MsgFlag := Gossip_MSG }) = some (getMsgHeadInfo m) ∨
      IgnoreMsg s m = true) :
    t.gossipMsg.lookup (rlpHash { m with MsgFlag := Gossip_MSG }) = some (getMsgHeadInfo m) ∨
      IgnoreMsg t m = true := by
  obtain ⟨h1, h2, hc⟩ := traffic_cache hstep
  rcases h with h | h
  · left
    rcases hc with hc | ⟨m2, hc⟩
    · rw [hc]; exact h
    · rw [hc]
      by_cases hk : rlpHash { m with MsgFlag := Gossip_MSG }
          = rlpHash { m2 with MsgFlag := Gossip_MSG }
      · have hmm : ({ m with MsgFlag := Gossip_MSG } : networkMsg)
            = { m2 with MsgFlag := Gossip_MSG } := hinj hk
        have hh : getMsgHeadInfo m2 = getMsgHeadInfo m := by
          have := congrArg getMsgHeadInfo hmm
          exact this.symm
        rw [hk, AList.lookup_insert, hh]
      · rw [AList.lookup_insert_ne hk]; exact h
  · right
    rw [IgnoreMsg_congr s t m h1 h2]; exact h

theorem recorded_progressed [DecidableEq H] {s t : netService H} (k : H) (m : networkMsg)
    (hp : Progressed s t)
    (h : s.gossipMsg.lookup k = some (getMsgHeadInfo m) ∨ IgnoreMsg s m = true) :
    t.gossipMsg.lookup k = some (getMsgHeadInfo m) ∨ IgnoreMsg t m = true := by
  induction hp with
  | refl => exact h
  | tail _ hstep ih =>
    cases hstep
    case progress N K hN hK => exact recorded_progress _ k m N K hN hK ih

theorem recorded_later [DecidableEq H] {rlpHash : networkMsg → H}
    (hinj : Function.Injective rlpHash) {s t : netService H} (m : networkMsg)
    (hl : Later rlpHash s t)
    (h : s.gossipMsg.lookup (rlpHash { m with MsgFlag := Gossip_MSG }) = some (getMsgHeadInfo m) ∨
      IgnoreMsg s m = true) :
    t.gossipMsg.lookup (rlpHash { m with MsgFlag := Gossip_MSG }) = some (getMsgHeadInfo m) ∨
      IgnoreMsg t m = true := by
  induction hl with
  | refl => exact h
  | tail _ hstep ih =>
    cases hstep
    case handle env e h => exact recorded_traffic hinj m (Traffic.handle env e h) ih
    case bcast env m0 m1 h => exact recorded_traffic hinj m (Traffic.bcast env m0 m1 h) ih
    case send a m0 h => exact recorded_traffic hinj m (Traffic.send a m0 h) ih
    case setRunning a b => exact recorded_traffic hinj m (Traffic.setRunning a b _) ih
    case worker a nb => exact recorded_traffic hinj m (Traffic.worker a nb _) ih
    case progress N K hN hK => exact recorded_progress _ _ m N K hN hK ih

/-- An arrival with flag `Gossip_MSG` of a message that is recorded or ignored is
dropped: the handler returns the state unchanged. -/
theorem handle_recorded [DecidableEq H] (rlpHash : networkMsg → H) (env : Env)
    (u : netService H) (a : String) (m : networkMsg)
    (h : u.gossipMsg.lookup (rlpHash { m with MsgFlag := Gossip_MSG }) = some (getMsgHeadInfo m) ∨
      IgnoreMsg u m = true) :
    handleNetworkMsgAck rlpHash env u ⟨a, Payload.net { m with MsgFlag := Gossip_MSG }⟩
      = some u := by
  rcases hi : IgnoreMsg u m with _ | _
  · rcases h with h | h
    · exact handle_dup rlpHash env u a _ _ hi (by show (Gossip_MSG &&& Gossip_MSG) > 0; decide) h
    · rw [hi] at h; exact absurd h (by decide)
  · exact handle_stale rlpHash env u a _ hi

theorem getElem?_append_last {α : Type} (l : List α) (x : α) :
    (l ++ [x])[l.length]? = some x := by
  simp

theorem set_append_last {α : Type} (l : List α) (x y : α) :
    (l ++ [x]).set l.length y = l ++ [y] := by
  induction l with
  | nil => rfl
  | cons a l ih => simp [List.set, ih]

/-- A start call on a stopping flag, its steps run one after the other. -/
theorem run_start_on_stopping (st : RunState) (h : st.flag = some 2) :
    runSchedule st
        [RunAction.call true, RunAction.stepCall st.calls.length,
         RunAction.stepCall st.calls.length, RunAction.stepCall st.calls.length]
      = some { st with flag := some 1, calls := st.calls ++ [CallPc.done] } := by
  obtain ⟨f, q, c, w⟩ := st
  simp only at h
  subst h
  simp [runSchedule, runStep, stepCallPc, getElem?_append_last, set_append_last]

/-- A start call on an idle flag, its steps run one after the other. -/
theorem run_start_on_idle (st : RunState) (h : st.flag = some 0) :
    runSchedule st
        [RunAction.call true, RunAction.stepCall st.calls.length,
         RunAction.stepCall st.calls.length, RunAction.stepCall st.calls.length,
         RunAction.stepCall st.calls.length]
      = some { st with flag := some 1, hasQueue := true, calls := st.calls ++ [CallPc.done],
                       workers := st.workers ++ [WorkPc.test] } := by
  obtain ⟨f, q, c, w⟩ := st
  simp only at h
  subst h
  simp [runSchedule, runStep, stepCallPc, getElem?_append_last, set_append_last]

/-- For a message with at most one payload the first non-nil payload is the only
one, and staleness is staleness read field by field. -/
theorem stale_iff_anyField (N K : Nat) (m : networkMsg)
    (h1 : m.Cmsg = none ∨ (m.Bmsg = none ∧ m.Hmsg = none))
    (h2 : m.Bmsg = none ∨ m.Hmsg = none) :
    stale N K m ↔ staleAnyField N K m := by
  unfold stale staleAnyField
  rcases hc : m.Cmsg with _ | c
  · rcases hb : m.Bmsg with _ | b
    · simp
    · simp [hb] at h2
      simp [h2]
  · simp [hc] at h1
    simp [h1.1, h1.2]

/-! # Claims -/

/-! ## Pruning -/

/-- C3. After `procBlockDone(N, K)` the cache is exactly the prior cache filtered by
"not in a pruned range": the entry list is the filtered list, a key maps to an
entry afterwards iff it mapped to that same entry before and the entry has
neither `blockN` in (0, N) nor `keyblockN` in (0, K); an entry with both heights
0 always stays. -/
theorem procBlockDone_prune_correct [DecidableEq H] (s : netService H) (N K : Nat) :
    (procBlockDone s N K).gossipMsg.entries
        = s.gossipMsg.entries.filter (fun e => decide (¬ pruned N K e.2)) ∧
      (∀ k h, (procBlockDone s N K).gossipMsg.lookup k = some h ↔
          (s.gossipMsg.lookup k = some h ∧ ¬ pruned N K h)) ∧
      (∀ k h, s.gossipMsg.lookup k = some h → h.blockN = 0 → h.keyblockN = 0 →
          (procBlockDone s N K).gossipMsg.lookup k = some h) := by
  refine ⟨procBlockDone_entries s N K, procBlockDone_lookup s N K, ?_⟩
  intro k h hk hb hkb
  refine (procBlockDone_lookup s N K k h).2 ⟨hk, ?_⟩
  simp [pruned, hb, hkb]

/-- C10 (counterexample).  A header message of height 7 is broadcast and recorded;
`procBlockDone(10, 0)` prunes its entry and `procBlockDone(5, 0)` then lowers the
progress: the message is not stale, its entry is gone, and its next arrival is
fanned out and delivered again.  And an arrival with flag 9 of a recorded message
is fanned out again after `procBlockDone(5, 0)` although the entry is still
there. -/
theorem prune_counterexample :
    ((broadcast id env5 node0 (headerMsg 8 7)).map
        (fun r => view (procBlockDone (procBlockDone r.1 10 0) 5 0))
      = some { queues := [some [headerMsg 8 7], some [headerMsg 8 7], none, none]
               acked := []
               spawned := ["a1", "a2"]
               cache := []
               sent := [] }) ∧
    ((broadcast id env5 node0 (headerMsg 8 7)).map
        (fun r => IgnoreMsg (procBlockDone (procBlockDone r.1 10 0) 5 0) (headerMsg 8 7))
      = some false) ∧
    ((broadcast id env5 node0 (headerMsg 8 7)).bind
        (fun r => handleNetworkMsgAck id env5 (procBlockDone (procBlockDone r.1 10 0) 5 0)
          ⟨"a3", Payload.net (headerMsg 8 7)⟩)).map view
      = some { queues := [some [headerMsg 8 7, headerMsg 8 7],
                          some [headerMsg 8 7, headerMsg 8 7], none, none]
               acked := [("a3", headerMsg 8 7)]
               spawned := ["a1", "a2"]
               cache := [(headerMsg 8 7, { blockN := 7, keyblockN := 0 })]
               sent := [] } ∧
    ((broadcast id env5 node0 (headerMsg 9 7)).bind
        (fun r => handleNetworkMsgAck id env5 (procBlockDone r.1 5 0)
          ⟨"a3", Payload.net (headerMsg 9 7)⟩)).map view
      = some { queues := [some [headerMsg 8 7, headerMsg 8 7],
                          some [headerMsg 8 7, headerMsg 8 7], none, none]
               acked := [("a3", headerMsg 8 7)]
               spawned := ["a1", "a2"]
               cache := [(headerMsg 8 7, { blockN := 7, keyblockN := 0 })]
               sent := [] } := by
  refine ⟨by decide, by decide, by decide, by decide⟩

/-- C10 (amended).  Pruning only forgets stale messages.  When `broadcast` has
recorded `m` (a committee being there), the cache holds `getMsgHeadInfo m` under
the digest of `m` with the flag `Gossip_MSG`; after any `procBlockDone(N, K)`, if
that entry is gone then `IgnoreMsg m` is true in the resulting state, and if `m`
is still not ignored the entry is still there, unchanged.  In every state reached
by progress notifications that lower no height (and, the digest being injective,
by any operations of the service that lower no height) the message is still
recorded or it is ignored, so its arrival with the flag `Gossip_MSG` stays
suppressed: the handler returns the state unchanged. -/
theorem prune_forgets_only_stale [DecidableEq H] (rlpHash : networkMsg → H) (env : Env)
    (s t : netService H) (m m1 : networkMsg) (N K : Nat)
    (hmb : env.currentMember ≠ none)
    (hb : broadcast rlpHash env s m = some (t, m1)) :
    m1 = { m with MsgFlag := Gossip_MSG } ∧
      t.gossipMsg.lookup (rlpHash m1) = some (getMsgHeadInfo m) ∧
      ((procBlockDone t N K).gossipMsg.lookup (rlpHash m1) = none →
        IgnoreMsg (procBlockDone t N K) m = true) ∧
      (IgnoreMsg (procBlockDone t N K) m = false →
        (procBlockDone t N K).gossipMsg.lookup (rlpHash m1) = some (getMsgHeadInfo m)) ∧
      (∀ u, (Progressed t u ∨ (Function.Injective rlpHash ∧ Later rlpHash t u)) →
        (u.gossipMsg.lookup (rlpHash m1) = some (getMsgHeadInfo m) ∨ IgnoreMsg u m = true) ∧
        ∀ env2 a, handleNetworkMsgAck rlpHash env2 u ⟨a, Payload.net m1⟩ = some u) := by
  obtain ⟨hm1, -, -, -, -, -, hg, -⟩ := broadcast_frame rlpHash env s t m m1 hb
  have hrec : t.gossipMsg.lookup (rlpHash m1) = some (getMsgHeadInfo m) := by
    rcases hc : env.currentMember with _ | l
    · exact absurd hc hmb
    · rw [hc] at hg
      rw [hg, hm1]
      exact AList.lookup_insert _
  have keep : IgnoreMsg (procBlockDone t N K) m = false →
      (procBlockDone t N K).gossipMsg.lookup (rlpHash m1) = some (getMsgHeadInfo m) := by
    intro hi
    refine (procBlockDone_lookup t N K _ _).2 ⟨hrec, fun hp => ?_⟩
    have hst : stale N K m := stale_of_pruned N K m hp
    have : IgnoreMsg (procBlockDone t N K) m = true :=
      (IgnoreMsg_iff_stale (procBlockDone t N K) m).2 hst
    rw [hi] at this
    exact Bool.false_ne_true this
  refine ⟨hm1, hrec, fun hnone => ?_, keep, fun u hu => ?_⟩
  · rcases hi : IgnoreMsg (procBlockDone t N K) m with _ | _
    · rw [keep hi] at hnone
      exact absurd hnone (by simp)
    · rfl
  · subst hm1
    have hinv : u.gossipMsg.lookup (rlpHash { m with MsgFlag := Gossip_MSG })
        = some (getMsgHeadInfo m) ∨ IgnoreMsg u m = true := by
      rcases hu with hu | ⟨hinj, hu⟩
      · exact recorded_progressed _ m hu (Or.inl hrec)
      · exact recorded_later hinj m hu (Or.inl hrec)
    exact ⟨hinv, fun env2 a => handle_recorded rlpHash env2 u a m hinv⟩

/-- C10 (witness).  A header message of height 7 broadcast with the committee of
five, then `procBlockDone(5, 0)` and `procBlockDone(6, 1)`: the message is not
stale, its entry stays and its next arrival is dropped. -/
theorem prune_forgets_only_stale_witness :
    env5.currentMember ≠ none ∧
    ∃ t, broadcast id env5 node0 (headerMsg 0 7) = some (t, headerMsg 8 7) ∧
      (procBlockDone t 5 0).gossipMsg.lookup (id (headerMsg 8 7))
        = some (getMsgHeadInfo (headerMsg 0 7)) ∧
      handleNetworkMsgAck id env5 (procBlockDone (procBlockDone t 5 0) 6 1)
          ⟨"a3", Payload.net (headerMsg 8 7)⟩
        = some (procBlockDone (procBlockDone t 5 0) 6 1) := by
  obtain ⟨t, ht, -⟩ := broadcast_total id env5 node0 (headerMsg 0 7) (WF_newNetService "a0")
    (by decide)
  obtain ⟨-, -, -, h4, h5⟩ :=
    prune_forgets_only_stale id env5 node0 t (headerMsg 0 7) (headerMsg 8 7) 5 0 (by decide) ht
  have hfr : t.curBlockN = 0 ∧ t.curKeyBlockN = 0 := by
    obtain ⟨-, -, h1, h2, -⟩ := broadcast_frame id env5 node0 t _ _ ht
    exact ⟨h1, h2⟩
  have hp : Progressed t (procBlockDone (procBlockDone t 5 0) 6 1) :=
    Relation.ReflTransGen.tail
      (Relation.ReflTransGen.single
        (ProgressStep.progress 5 0 t (by rw [hfr.1]; decide) (by rw [hfr.2])))
      (ProgressStep.progress 6 1 (procBlockDone t 5 0) (by show (5 : Nat) ≤ 6; decide)
        (by show (0 : Nat) ≤ 1; decide))
  exact ⟨by decide, t, ht, h4 rfl, (h5 _ (Or.inl hp)).2 env5 "a3"⟩

/-! ## Delivery and duplicate suppression -/

/-- C4 (counterexample).  After `procBlockDone(10, 2)` the block height is 10; a
gossip committee message of key height 5, below 10, is still handed to the
callback and fanned out, and the worker of `a1` then sends it. -/
theorem staleness_counterexample :
    (procBlockDone node0 10 2).curBlockN = 10 ∧
    (handleNetworkMsgAck id env5 (procBlockDone node0 10 2)
        ⟨"a3", Payload.net (keyMsg 8 5)⟩).map view
      = some { queues := [some [keyMsg 8 5], some [keyMsg 8 5], none, none]
               acked := [("a3", keyMsg 8 5)]
               spawned := ["a1", "a2"]
               cache := [(keyMsg 8 5, { blockN := 0, keyblockN := 5 })]
               sent := [] } ∧
    (handleNetworkMsgAck id env5 (procBlockDone node0 10 2)
        ⟨"a3", Payload.net (keyMsg 8 5)⟩).map (fun s => view (loop_iddata_pass s "a1" 0).1)
      = some { queues := [some [], some [keyMsg 8 5], none, none]
               acked := [("a3", keyMsg 8 5)]
               spawned := ["a1", "a2"]
               cache := [(keyMsg 8 5, { blockN := 0, keyblockN := 5 })]
               sent := [("a1", keyMsg 8 5)] } := by
  refine ⟨rfl, by decide, by decide⟩

/-- C4 (amended).  Once `procBlockDone(N, K)` has set the progress, a message that
is stale against it (first non-nil of `Cmsg`, `Bmsg`, `Hmsg`: key height below
`K`, key height below `K`, height below `N`) is neither forwarded nor
re-broadcast in any state reached later by operations that do not lower the
progress: `handleNetworkMsgAck` returns the state unchanged, no pass of
`loop_iddata` sends it, and a pass that pops it only removes it from the queue. -/
theorem stale_never_forwarded [DecidableEq H] (rlpHash : networkMsg → H)
    (s0 s : netService H) (N K : Nat) (m : networkMsg)
    (hlater : Later rlpHash (procBlockDone s0 N K) s) (hstale : stale N K m) :
    (∀ env a, handleNetworkMsgAck rlpHash env s ⟨a, Payload.net m⟩ = some s) ∧
      (∀ a nb, (loop_iddata_pass s a nb).1.sent ≠ s.sent ++ [(a, m)]) ∧
      (∀ a nb q, s.goMap a = some 1 → nb ≤ 1 → s.idDataMap a = some (m :: q) →
        loop_iddata_pass s a nb
          = ({ s with idDataMap := Function.update s.idDataMap a (some q) }, true)) := by
  obtain ⟨hN, hK⟩ := later_progress_le hlater
  have hi : IgnoreMsg s m = true :=
    (IgnoreMsg_iff_stale s m).2 (stale_mono hN hK hstale)
  refine ⟨fun env a => handle_stale rlpHash env s a m hi, fun a nb => ?_, fun a nb q hg hnb hq => ?_⟩
  · rcases (loop_iddata_pass_cases s a nb).2 with h | ⟨m1, hm1, h⟩
    · rw [h]
      intro hcontra
      have := congrArg List.length hcontra
      simp at this
    · rw [h]
      intro hcontra
      have hm : m1 = m := by
        have := List.append_cancel_left hcontra
        simpa using this
      rw [hm, hi] at hm1
      exact Bool.false_ne_true hm1.symm
  · exact loop_iddata_pass_drop s a nb m q hg (by omega) hq hi

/-- C4 (witness).  A header message of height 5 after `procBlockDone(10, 2)` and a
later `procBlockDone(11, 2)`. -/
theorem stale_never_forwarded_witness :
    stale 10 2 (headerMsg 8 5) ∧
    handleNetworkMsgAck id env5 (procBlockDone (procBlockDone node0 10 2) 11 2)
        ⟨"a3", Payload.net (headerMsg 8 5)⟩
      = some (procBlockDone (procBlockDone node0 10 2) 11 2) :=
  have hst : stale 10 2 (headerMsg 8 5) :=
    Or.inr (Or.inr ⟨rfl, rfl, _, rfl, by decide⟩)
  ⟨hst,
   (stale_never_forwarded id node0 (procBlockDone (procBlockDone node0 10 2) 11 2) 10 2
      (headerMsg 8 5)
      (Relation.ReflTransGen.single
        (Step.progress 11 2 (procBlockDone node0 10 2) (by decide) (by decide)))
      hst).1 env5 "a3"⟩

/-! ## Fan-out -/

/-- C5 (the code at the failing input).  Committee of five, `GetRandIntArray(5, 3)`
returning the indices 4, 2, 3: `broadcast` pushes the message to the members at
the positions 0, 1, 2 of the index array (0 is the node itself and is skipped),
so `a1` and `a2` receive it and the selected `a3` and `a4` receive nothing.  In
general the loop of `broadcast` depends on the length of the index array only:
two arrays of the same length give the same result. -/
theorem broadcast_ignores_indices :
    env5.randIntArray env5.committeeLen ((env5.committeeLen * 4 / 10) + 1) = [4, 2, 3] ∧
    (broadcast id env5 node0 (headerMsg 0 7)).map (fun r => view r.1)
      = some { queues := [some [headerMsg 8 7], some [headerMsg 8 7], none, none]
               acked := []
               spawned := ["a1", "a2"]
               cache := [(headerMsg 8 7, { blockN := 7, keyblockN := 0 })]
               sent := [] } ∧
    (∀ (mblist : List CommitteeMember) (msg : networkMsg) (l1 l2 : List Nat)
        (s : netService networkMsg), l1.length = l2.length →
        broadcastLoop mblist msg l1.enum s = broadcastLoop mblist msg l2.enum s) := by
  refine ⟨rfl, by decide, fun mblist msg l1 l2 s h => ?_⟩
  exact broadcastLoop_enum_length mblist msg l1 l2 s h

/-- C6. Self-exclusion.  Whatever the message, the committee list and the index
array, a `broadcast` that returns has touched neither the queue nor the flag of
an address that belongs only to members flagged as self; and `SendRawData` to the
node's own `serverAddress` returns the state unchanged. -/
theorem self_exclusion [DecidableEq H] (rlpHash : networkMsg → H) (env : Env)
    (s t : netService H) (msg msg1 : networkMsg)
    (hb : broadcast rlpHash env s msg = some (t, msg1)) :
    (∀ a, (∀ mblist, env.currentMember = some mblist →
            ∀ mbr ∈ mblist, mbr.Address = a → mbr.isSelf = true) →
        t.idDataMap a = s.idDataMap a ∧ t.goMap a = s.goMap a) ∧
      (∀ u : netService H, ∀ m, SendRawData u u.serverAddress m = some u) := by
  obtain ⟨-, -, -, -, -, -, -, hun⟩ := broadcast_frame rlpHash env s t msg msg1 hb
  exact ⟨hun, fun u m => SendRawData_self u m⟩

/-- C6 (witness).  The committee of five, whose member `a0` is the node itself. -/
theorem self_exclusion_witness :
    ∃ t, broadcast id env5 node0 (headerMsg 0 7) = some (t, headerMsg 8 7) ∧
      t.idDataMap "a0" = node0.idDataMap "a0" ∧ t.goMap "a0" = node0.goMap "a0" := by
  obtain ⟨t, ht, -⟩ := broadcast_total id env5 node0 (headerMsg 0 7) (WF_newNetService "a0")
    (by decide)
  refine ⟨t, ht, (self_exclusion id env5 node0 t (headerMsg 0 7) _ ht).1 "a0" ?_⟩
  intro mblist hl mbr hm ha
  have hc : committee5 = mblist := Option.some.inj hl
  subst hc
  have key : ∀ x ∈ committee5, x.Address = "a0" → x.isSelf = true := by decide
  exact key mbr hm ha

/-! ## Running flag -/

/-- C9 (counterexample).  In `stoppingNode` the flag of `a1` is 2; the call
`setIsRunning("a1", true)` launches nothing but changes the flag to 1, so the
flag leaves the stopping state without the worker having set it to 0.  And when
a start call overlaps the settling of the worker (`lostWorkerSchedule`), the
start call after the settling finds the flag at 1 and launches nothing: the flag
is 1 and no worker is live. -/
theorem stopping_flag_counterexample :
    stoppingNode.goMap "a1" = some 2 ∧
    (setIsRunning stoppingNode "a1" true).goMap "a1" = some 1 ∧
    (setIsRunning stoppingNode "a1" true).spawned = stoppingNode.spawned ∧
    (runSchedule RunState.init lostWorkerSchedule).map (fun st => (st.flag, st.liveWorkers))
      = some (some 1, 0) := by
  refine ⟨by decide, by decide, by decide, by decide⟩

/-- C9 (amended).  For a peer whose flag is 2 (stopping).  One call at a time:
`setIsRunning(peer, true)` launches no worker and sets the flag to 1, and neither
does a `SendRawData` to that peer launch one; a pass of the worker that sees the
flag 2 ends the worker with the flag at 0, and a `setIsRunning(peer, true)` run
right after it sets the flag to 1 and launches exactly one worker.  Atomic step
by atomic step, whatever other calls and workers are in progress: a start call
whose steps run one after the other on a flag at 2 ends with the flag at 1 and
no new worker; a start call that has loaded a value other than 0 stores 1 and
is done, one that has loaded 0 stores 1 and then launches exactly one worker; a
worker that tests a flag other than 1 goes on to store 0; and a start call whose
steps run one after the other on a flag at 0 sets it to 1 and launches exactly
one worker. -/
theorem stopping_not_respawned (s : netService H) (id : String) (nb : Nat)
    (st : RunState) (h : s.goMap id = some 2) (hst : st.flag = some 2) :
    -- one call at a time, on the service state
    ((setIsRunning s id true).spawned = s.spawned ∧
      (setIsRunning s id true).goMap id = some 1 ∧
      (∀ m t, SendRawData s id m = some t → t.spawned = s.spawned) ∧
      (loop_iddata_pass s id nb).2 = false ∧
      (loop_iddata_pass s id nb).1.goMap id = some 0 ∧
      (setIsRunning (loop_iddata_pass s id nb).1 id true).goMap id = some 1 ∧
      (setIsRunning (loop_iddata_pass s id nb).1 id true).spawned = s.spawned ++ [id]) ∧
    -- atomic steps, whatever else is in progress
    (runSchedule st
        [RunAction.call true, RunAction.stepCall st.calls.length,
         RunAction.stepCall st.calls.length, RunAction.stepCall st.calls.length]
      = some { st with flag := some 1, calls := st.calls ++ [CallPc.done] }) ∧
    (∀ (u : RunState) (k i : Nat), u.calls[k]? = some (CallPc.store true i) → i ≠ 0 →
      runStep u (RunAction.stepCall k)
        = some { u with flag := some 1, calls := u.calls.set k CallPc.done }) ∧
    (∀ (u : RunState) (k : Nat), u.calls[k]? = some (CallPc.store true 0) →
      runStep u (RunAction.stepCall k)
        = some { u with flag := some 1, calls := u.calls.set k CallPc.spawn }) ∧
    (∀ (u : RunState) (k : Nat), u.calls[k]? = some CallPc.spawn →
      runStep u (RunAction.stepCall k)
        = some { u with hasQueue := true, calls := u.calls.set k CallPc.done,
                        workers := u.workers ++ [WorkPc.test] }) ∧
    (∀ (u : RunState) (k : Nat), u.workers[k]? = some WorkPc.test → u.flag ≠ some 1 →
      runStep u (RunAction.stepWork k)
        = some { u with workers := u.workers.set k WorkPc.settle }) ∧
    (∀ (u : RunState) (k : Nat), u.workers[k]? = some WorkPc.settle →
      runStep u (RunAction.stepWork k)
        = some { u with flag := some 0, workers := u.workers.set k WorkPc.exited }) ∧
    (∀ u : RunState, u.flag = some 0 →
      runSchedule u
          [RunAction.call true, RunAction.stepCall u.calls.length,
           RunAction.stepCall u.calls.length, RunAction.stepCall u.calls.length,
           RunAction.stepCall u.calls.length]
        = some { u with flag := some 1, hasQueue := true, calls := u.calls ++ [CallPc.done],
                        workers := u.workers ++ [WorkPc.test] }) := by
  have hne : s.goMap id ≠ some 1 := by rw [h]; decide
  have hsp : (setIsRunning s id true).spawned = s.spawned := by
    rw [setIsRunning_true_eq]; simp [h]
  refine ⟨⟨hsp, by rw [setIsRunning_true_eq]; simp, ?_, ?_, ?_, ?_, ?_⟩,
    run_start_on_stopping st hst, ?_, ?_, ?_, ?_, ?_, fun u hu => run_start_on_idle u hu⟩
  · intro m t ht
    unfold SendRawData at ht
    by_cases ha : id = s.serverAddress
    · rw [if_pos ha] at ht
      cases ht; rfl
    · rw [if_neg ha] at ht
      rcases hq : (setIsRunning s id true).idDataMap id with _ | q
      · simp [hq] at ht
      · simp only [hq, Option.some.injEq] at ht
        subst ht
        exact hsp
  · rw [loop_iddata_pass_stop s id nb hne]
  · rw [loop_iddata_pass_stop s id nb hne]; simp
  · rw [setIsRunning_true_eq]; simp
  · rw [loop_iddata_pass_stop s id nb hne, setIsRunning_true_eq]; simp
  · intro u k i hk hi
    simp [runStep, hk, stepCallPc, hi]
  · intro u k hk
    simp [runStep, hk, stepCallPc]
  · intro u k hk
    simp [runStep, hk, stepCallPc]
  · intro u k hk hf
    simp [runStep, hk, stepWorkPc, hf]
  · intro u k hk
    simp [runStep, hk, stepWorkPc]

/-- C9 (witness).  The amended statement at `stoppingNode` and the peer `a1`, and
at `stoppingRun`. -/
theorem stopping_not_respawned_witness :
    stoppingNode.goMap "a1" = some 2 ∧ stoppingRun.flag = some 2 ∧
    (setIsRunning stoppingNode "a1" true).spawned = stoppingNode.spawned ∧
    (setIsRunning (loop_iddata_pass stoppingNode "a1" 0).1 "a1" true).spawned
      = stoppingNode.spawned ++ ["a1"] ∧
    runSchedule stoppingRun
        [RunAction.call true, RunAction.stepCall stoppingRun.calls.length,
         RunAction.stepCall stoppingRun.calls.length,
         RunAction.stepCall stoppingRun.calls.length]
      = some { stoppingRun with flag := some 1, calls := stoppingRun.calls ++ [CallPc.done] } :=
  have h : stoppingNode.goMap "a1" = some 2 := by decide
  have hst : stoppingRun.flag = some 2 := rfl
  ⟨h, hst, (stopping_not_respawned stoppingNode "a1" 0 stoppingRun h hst).1.1,
    (stopping_not_respawned stoppingNode "a1" 0 stoppingRun h hst).1.2.2.2.2.2.2,
    (stopping_not_respawned stoppingNode "a1" 0 stoppingRun h hst).2.1⟩

/-- C7 (the code at the failing schedule).  Two concurrent calls
`setIsRunning(id, true)` on an idle address, interleaved as in `raceSchedule`:
both load the flag 0 before either stores 1, and both launch a worker; in the
state reached two workers are live, so "at most one live worker" is not an
invariant of the step relation. -/
theorem two_live_workers :
    runSchedule RunState.init raceSchedule = some raceOutcome ∧
    raceOutcome.liveWorkers = 2 ∧
    ¬ (∀ (sched : List RunAction) (st : RunState),
        runSchedule RunState.init sched = some st → st.liveWorkers ≤ 1) := by
  have hrun : runSchedule RunState.init raceSchedule = some raceOutcome := by decide
  refine ⟨hrun, by decide, fun h => ?_⟩
  exact absurd (h raceSchedule raceOutcome hrun) (by decide)

/-! ## Heartbeat -/

/-- C8 (the code at the failing schedule).  Timeout 1 s, the peer `p` acknowledged
1.5 s ago: `p` is overdue, and two successive passes of the loop, before the
goroutine launched by the first has stored 1 into `isSending`, launch two sends
to `p`; both are in flight at once. -/
theorem two_heartbeats_in_flight :
    isOverdue (ackInstant + 1500000000) { tm := ackInstant, isSending := 0 } second = true ∧
    (heartBeat_pass second (ackInstant + 1500000000) (fun _ => 0) hbAcked committee2).sends
      = [("p", SendPc.store1)] ∧
    hbTwoPasses.sends = [("p", SendPc.store1), ("p", SendPc.store1)] ∧
    hbTwoPasses.inFlight "p" = 2 := by
  refine ⟨by decide, by decide, by decide, by decide⟩

end Gossip
